import Mathlib

/-!
Verification of the vLLM-style batched-inference scheduler simulator.

This file gives a shallow embedding, in Lean, of the scheduler core of the
repository (src/core/request.py, src/core/system_state.py,
src/control/advanced_policy.py, src/simulation/vllm_simulator.py,
src/simulation/vllm_simulator_with_state.py) and proves or refutes the
frozen claims about it.

Modelling conventions:
* Python integers are modelled as `ℤ` (token counts, memory) or `ℕ`
  (cumulative counters, list lengths); Python floats that carry simulated
  time are modelled as `ℚ` (every claim under study is about ordering and
  exact small-integer arithmetic on times, where float and rational
  arithmetic agree).
* Python objects are modelled by values; the code mutates request objects
  that are aliased from the queues, and each such in-place mutation is
  modelled by replacing the corresponding value in the owning queue.
  `list.remove(x)` is `List.erase` (first element equal to `x` is dropped),
  `max(xs, key=k)` is a fold that keeps the earliest element with the
  maximal key, exactly as CPython does.
* Code that can raise returns `Except String`; a `RuntimeError` or
  `TypeError` raised by Python is `.error`.
* Python dataclass construction with keyword arguments checks the keyword
  names against the dataclass fields and raises `TypeError` on an unknown
  name; `mkSacrificeEvent` models that check for the one call site where it
  matters (see `performSacrifice`).
-/

/-- Request status constants from src/core/constants.py. -/
inductive RequestStatus where
  | waiting
  | running
  | swapped
  | completed
deriving DecidableEq, Repr

/-- SwapEvent dataclass from src/core/request.py. -/
structure SwapEvent where
  swap_out_time : ℚ
  swap_in_time : Option ℚ := none
  decode_position : ℤ := 0
  memory_size : ℤ := 0
deriving DecidableEq, Repr

/-- SacrificeEvent dataclass from src/core/request.py (lines 18-24): it
declares exactly the three fields time, decode_position and memory_freed. -/
structure SacrificeEvent where
  time : ℚ
  decode_position : ℤ
  memory_freed : ℤ
deriving DecidableEq, Repr

/-- Field names accepted by the SacrificeEvent dataclass constructor,
as declared in src/core/request.py. -/
def sacrificeEventFieldNames : List String :=
  ["time", "decode_position", "memory_freed"]

/-- Request dataclass from src/core/request.py. -/
structure Request where
  req_id : ℕ
  arrival_time : ℚ
  prefill_length : ℤ
  decode_length : ℤ
  status : RequestStatus := .waiting
  current_decode_position : ℤ := 0
  enter_running_times : List ℚ := []
  exit_running_times : List ℚ := []
  completion_time : Option ℚ := none
  swap_events : List SwapEvent := []
  sacrifice_events : List SacrificeEvent := []
deriving DecidableEq, Repr

/-- Request.memory_requirement (property). -/
def Request.memory_requirement (r : Request) : ℤ :=
  r.prefill_length + r.current_decode_position

/-- Request.current_memory_usage (property): nonzero only in RUNNING. -/
def Request.current_memory_usage (r : Request) : ℤ :=
  if r.status = .running then r.prefill_length + r.current_decode_position else 0

/-- Request.is_completed (property). -/
def Request.isCompleted (r : Request) : Bool :=
  r.decode_length ≤ r.current_decode_position

/-- SystemState from src/core/system_state.py (the fields the scheduler
core reads and writes). -/
structure SystemState where
  M_total : ℤ
  B : ℤ
  waiting : List Request := []
  running : List Request := []
  swapped : List Request := []
  completed_requests : List Request := []
  total_completed : ℕ := 0
  total_admitted : ℕ := 0
  total_swapped_out : ℕ := 0
  total_swapped_in : ℕ := 0
  total_sacrifices : ℕ := 0
  batch_sacrifices : ℕ := 0
  actual_batch_tokens : ℤ := 0
  actual_batch_count : ℕ := 0
deriving DecidableEq, Repr

/-- SystemState.gpu_memory_used (property): sum of current_memory_usage
over the running list. -/
def SystemState.gpu_memory_used (s : SystemState) : ℤ :=
  (s.running.map Request.current_memory_usage).sum

/-- SystemState.available_memory (property). -/
def SystemState.available_memory (s : SystemState) : ℤ :=
  s.M_total - s.gpu_memory_used

/-- SystemState.can_admit. -/
def SystemState.canAdmit (s : SystemState) (r : Request) : Bool :=
  r.memory_requirement ≤ s.available_memory

/-- SystemState.admit_to_batch: raises RuntimeError when can_admit fails,
otherwise marks the request RUNNING, stamps enter_running_times, appends it
to the running list and increments total_admitted. The raise happens before
any mutation, so in the error case caller-visible state is unchanged. -/
def SystemState.admitToBatch (s : SystemState) (r : Request) (t : ℚ) :
    Except String (SystemState × Request) :=
  if ¬ s.canAdmit r then
    .error "RuntimeError: insufficient memory to accept the request"
  else
    let r1 : Request :=
      { r with status := .running, enter_running_times := r.enter_running_times ++ [t] }
    .ok ({ s with running := s.running ++ [r1],
                  total_admitted := s.total_admitted + 1 }, r1)

/-- SystemState.remove_from_batch: when the request is in the running list,
stamp its exit time and drop it (Python list.remove drops the first equal
element; the stamped object is the list element itself, so the value
returned here is the stamped request). -/
def SystemState.removeFromBatch (s : SystemState) (r : Request) (t : ℚ) :
    SystemState × Request :=
  if r ∈ s.running then
    ({ s with running := s.running.erase r },
     { r with exit_running_times := r.exit_running_times ++ [t] })
  else (s, r)

/-- Claim C9: SystemState.admit_to_batch raises exactly when
memory_requirement exceeds available_memory; on success it sets the status
to RUNNING, appends the time to enter_running_times, appends the request to
the running list and increments total_admitted by one, and changes nothing
else (the error is raised before any mutation, so a raising call leaves
state and request unchanged). -/
theorem admit_to_batch_spec (s : SystemState) (r : Request) (t : ℚ) :
    ((∃ e, s.admitToBatch r t = .error e) ↔
        s.available_memory < r.memory_requirement) ∧
    (r.memory_requirement ≤ s.available_memory →
      s.admitToBatch r t =
        .ok ({ s with
                running := s.running ++
                  [{ r with status := .running,
                            enter_running_times := r.enter_running_times ++ [t] }],
                total_admitted := s.total_admitted + 1 },
             { r with status := .running,
                      enter_running_times := r.enter_running_times ++ [t] })) := by
  constructor
  · constructor
    · intro ⟨e, he⟩
      by_contra hle
      push_neg at hle
      simp [SystemState.admitToBatch, SystemState.canAdmit, hle] at he
    · intro hlt
      refine ⟨"RuntimeError: insufficient memory to accept the request", ?_⟩
      simp [SystemState.admitToBatch, SystemState.canAdmit, not_le.mpr hlt]
  · intro hle
    simp [SystemState.admitToBatch, SystemState.canAdmit, hle]

/-- Witness for C9 at a concrete input: a request of memory requirement 3
against 5 free tokens is accepted with the stated effects. -/
theorem admit_to_batch_spec_witness :
    ({ M_total := 5, B := 10 } : SystemState).admitToBatch
        { req_id := 0, arrival_time := 0, prefill_length := 3, decode_length := 2 } 1 =
      .ok ({ M_total := 5, B := 10,
             running := [{ req_id := 0, arrival_time := 0, prefill_length := 3,
                           decode_length := 2, status := .running,
                           enter_running_times := [1] }],
             total_admitted := 1 },
           { req_id := 0, arrival_time := 0, prefill_length := 3, decode_length := 2,
             status := .running, enter_running_times := [1] }) := by
  have h := (admit_to_batch_spec ({ M_total := 5, B := 10 } : SystemState)
    { req_id := 0, arrival_time := 0, prefill_length := 3, decode_length := 2 } 1).2
  simpa using h (by decide)

/-- Tokens a request contributes to the execution batch: memory_requirement
plus one for the token produced this step (req_tokens in
select_execution_batch). -/
def reqTokens (r : Request) : ℤ :=
  r.memory_requirement + 1

/-- The loop of VLLMSimulator.select_execution_batch (identical in
VLLMSimulatorWithState): walk the running list in order, include a request
when the running total stays at most B, stop at the first request that
would exceed B, except that a first request exceeding B alone is still
included. Returns (execution_batch, total_tokens). -/
def selectLoop (B : ℤ) : List Request → List Request → ℤ → List Request × ℤ
  | [], batch, total => (batch, total)
  | r :: rest, batch, total =>
    if B < total + reqTokens r then
      if batch = [] then (batch ++ [r], total + reqTokens r)
      else (batch, total)
    else selectLoop B rest (batch ++ [r]) (total + reqTokens r)

/-- select_execution_batch of vllm_simulator.py lines 45-76 (and
vllm_simulator_with_state.py lines 109-140). -/
def selectExecutionBatch (B : ℤ) (running : List Request) : List Request × ℤ :=
  selectLoop B running [] 0

/-- Spec-side helper (from the claim text): include requests in order while
the budget still covers them, stop at the first that does not fit. -/
def greedyFit (B : ℤ) : List Request → List Request
  | [] => []
  | r :: rest =>
    if B < reqTokens r then [] else r :: greedyFit (B - reqTokens r) rest

/-- Spec-side batch of claim C1: the greedy in-order subset under budget B,
except that when already the first request alone exceeds B the batch is
exactly that request. -/
def greedySpecBatch (B : ℤ) : List Request → List Request
  | [] => []
  | r :: rest =>
    if B < reqTokens r then [r] else r :: greedyFit (B - reqTokens r) rest

/-- Total tokens of a batch. -/
def batchTokens (l : List Request) : ℤ :=
  (l.map reqTokens).sum

theorem selectLoop_acc (B : ℤ) (l : List Request) :
    ∀ (b : List Request) (total : ℤ), b ≠ [] →
      selectLoop B l b total =
        (b ++ greedyFit (B - total) l, total + batchTokens (greedyFit (B - total) l)) := by
  induction l with
  | nil =>
    intro b total _
    simp [selectLoop, greedyFit, batchTokens]
  | cons r rest ih =>
    intro b total hb
    by_cases h : B < total + reqTokens r
    · have h2 : B - total < reqTokens r := by omega
      simp [selectLoop, h, hb, greedyFit, h2, batchTokens]
    · have h2 : ¬ (B - total < reqTokens r) := by omega
      have e : B - (total + reqTokens r) = B - total - reqTokens r := by ring
      have hcons : b ++ [r] ≠ [] := by simp
      simp only [selectLoop, if_neg h]
      rw [ih (b ++ [r]) (total + reqTokens r) hcons]
      simp only [greedyFit, if_neg h2, batchTokens, List.map_cons, List.sum_cons,
        Prod.mk.injEq, e]
      exact ⟨by simp, by ring⟩

theorem selectExecutionBatch_eq (B : ℤ) (running : List Request) :
    selectExecutionBatch B running =
      (greedySpecBatch B running, batchTokens (greedySpecBatch B running)) := by
  cases running with
  | nil => simp [selectExecutionBatch, selectLoop, greedySpecBatch, batchTokens]
  | cons r rest =>
    by_cases h : B < reqTokens r
    · have h0 : B < 0 + reqTokens r := by omega
      simp [selectExecutionBatch, selectLoop, h0, greedySpecBatch, h, batchTokens]
    · have h0 : ¬ (B < 0 + reqTokens r) := by omega
      have hl := selectLoop_acc B rest [r] (reqTokens r) (by simp)
      simp only [selectExecutionBatch, selectLoop, zero_add, List.nil_append, if_neg h]
      rw [hl]
      simp [greedySpecBatch, h, batchTokens]

theorem greedyFit_isPre (B : ℤ) (l : List Request) :
    ∃ rest, l = greedyFit B l ++ rest := by
  induction l generalizing B with
  | nil => exact ⟨[], by simp [greedyFit]⟩
  | cons r tl ih =>
    by_cases h : B < reqTokens r
    · exact ⟨r :: tl, by simp [greedyFit, h]⟩
    · obtain ⟨rest, hrest⟩ := ih (B - reqTokens r)
      exact ⟨rest, by simp [greedyFit, h]; exact hrest⟩

theorem greedyFit_sum_le (B : ℤ) (l : List Request) (h : greedyFit B l ≠ []) :
    batchTokens (greedyFit B l) ≤ B := by
  induction l generalizing B with
  | nil => simp [greedyFit] at h
  | cons r tl ih =>
    by_cases hr : B < reqTokens r
    · simp [greedyFit, hr] at h
    · by_cases htl : greedyFit (B - reqTokens r) tl = []
      · simp [greedyFit, hr, htl, batchTokens]
        omega
      · have := ih (B - reqTokens r) htl
        simp [greedyFit, hr, batchTokens] at this ⊢
        omega

/-- preemption_mode values of AdvancedPolicy. -/
inductive PreemptionMode where
  | swap
  | sacrifice
deriving DecidableEq, Repr

/-- preemption_strategy values of AdvancedPolicy. -/
inductive PreemptionStrategy where
  | aggressive
  | conservative
deriving DecidableEq, Repr

/-- Keyword names with which AdvancedPolicy._perform_sacrifice constructs a
SacrificeEvent (advanced_policy.py lines 159-165). -/
def performSacrificeKwargNames : List String :=
  ["time", "decode_position", "memory_freed",
   "running_count_same_position", "total_running_count"]

/-- Python dataclass keyword construction: the keyword names are bound
against the declared fields of SacrificeEvent and a TypeError is raised on
any unknown name. The two count arguments are accepted as values here, but
no event results unless every keyword name is a declared field. -/
def mkSacrificeEvent (kwargNames : List String) (time : ℚ)
    (decode_position memory_freed : ℤ)
    (running_count_same_position total_running_count : ℕ) :
    Except String SacrificeEvent :=
  if kwargNames.all (fun k => sacrificeEventFieldNames.contains k) then
    .ok { time := time, decode_position := decode_position, memory_freed := memory_freed }
  else
    .error "TypeError: SacrificeEvent got an unexpected keyword argument"

/-- AdvancedPolicy._perform_sacrifice (advanced_policy.py lines 138-179):
count the running requests sharing the victim decode position, construct a
SacrificeEvent with the five keyword arguments, append it, remove the
victim from the batch, reset its decode position and bump the sacrifice
counters.  The in-place append on the aliased victim object is modelled by
threading the updated request value. -/
def performSacrifice (victim : Request) (s : SystemState) (t : ℚ) :
    Except String (SystemState × Request) :=
  let same_position_count :=
    (s.running.filter
      (fun r => r.current_decode_position = victim.current_decode_position)).length
  let total_running := s.running.length
  match mkSacrificeEvent performSacrificeKwargNames t victim.current_decode_position
      victim.current_memory_usage same_position_count total_running with
  | .error e => .error e
  | .ok ev =>
    let victim1 := { victim with sacrifice_events := victim.sacrifice_events ++ [ev] }
    let s1 := if victim ∈ s.running then { s with running := s.running.erase victim } else s
    let victim2 :=
      if victim ∈ s.running then
        { victim1 with exit_running_times := victim1.exit_running_times ++ [t] }
      else victim1
    let victim3 := { victim2 with current_decode_position := 0 }
    .ok ({ s1 with total_sacrifices := s1.total_sacrifices + 1,
                   batch_sacrifices := s1.batch_sacrifices + 1 }, victim3)

/-- CPython max(xs, key=k) with a nonempty list x :: xs: the first element
attaining the maximal key (a later element replaces the best only when its
key is strictly greater). -/
def pyMaxBy (key : Request → ℚ) (x : Request) (xs : List Request) : Request :=
  xs.foldl (fun best r => if key best < key r then r else best) x

/-- The victim sort key: enter_running_times[-1] when nonempty, else 0. -/
def lastEnterKey (r : Request) : ℚ :=
  r.enter_running_times.getLast?.getD 0

theorem pyMaxBy_mem (key : Request → ℚ) (x : Request) (xs : List Request) :
    pyMaxBy key x xs ∈ x :: xs := by
  unfold pyMaxBy
  induction xs generalizing x with
  | nil => simp
  | cons y ys ih =>
    simp only [List.foldl_cons]
    by_cases h : key x < key y
    · simp only [if_pos h]
      have := ih y
      rcases List.mem_cons.mp this with h1 | h1
      · simp [h1]
      · simp [List.mem_cons, h1]
    · simp only [if_neg h]
      have := ih x
      rcases List.mem_cons.mp this with h1 | h1
      · simp [h1]
      · simp [List.mem_cons, h1]

theorem pyMaxBy_acc_le (key : Request → ℚ) (xs : List Request) :
    ∀ x, key x ≤ key (pyMaxBy key x xs) := by
  unfold pyMaxBy
  induction xs with
  | nil => simp
  | cons y ys ih =>
    intro x
    simp only [List.foldl_cons]
    by_cases h : key x < key y
    · exact le_trans (le_of_lt h) (by simpa [h] using ih y)
    · simpa [h] using ih x

theorem pyMaxBy_le (key : Request → ℚ) (x : Request) (xs : List Request) :
    ∀ r ∈ x :: xs, key r ≤ key (pyMaxBy key x xs) := by
  induction xs generalizing x with
  | nil =>
    intro r hr
    simp at hr
    simp [hr, pyMaxBy]
  | cons y ys ih =>
    intro r hr
    have hstep : pyMaxBy key x (y :: ys) =
        pyMaxBy key (if key x < key y then y else x) ys := by
      simp [pyMaxBy]
    rcases List.mem_cons.mp hr with h1 | h1
    · subst h1
      by_cases h : key r < key y
      · rw [hstep, if_pos h]
        exact le_trans (le_of_lt h) (pyMaxBy_acc_le key ys y)
      · rw [hstep, if_neg h]
        exact pyMaxBy_acc_le key ys r
    · rcases List.mem_cons.mp h1 with h2 | h2
      · subst h2
        rw [hstep]
        by_cases h : key x < key r
        · rw [if_pos h]
          exact pyMaxBy_acc_le key ys r
        · rw [if_neg h]
          exact le_trans (le_of_not_lt h) (pyMaxBy_acc_le key ys x)
      · rw [hstep]
        exact ih _ r (List.mem_cons_of_mem _ h2)

/-- The swap branch of the phase-2 loop (advanced_policy.py lines
351-362): append a SwapEvent, remove the victim from the batch (stamping
its exit time), set its status to SWAPPED, append it to the swapped queue
and bump total_swapped_out. -/
def swapOutVictim (s : SystemState) (victim : Request) (t : ℚ) : SystemState :=
  let ev : SwapEvent :=
    { swap_out_time := t, decode_position := victim.current_decode_position,
      memory_size := victim.current_memory_usage }
  let victim1 := { victim with swap_events := victim.swap_events ++ [ev] }
  let s1 :=
    if victim ∈ s.running then { s with running := s.running.erase victim } else s
  let victim2 :=
    if victim ∈ s.running then
      { victim1 with exit_running_times := victim1.exit_running_times ++ [t] }
    else victim1
  let victim3 := { victim2 with status := .swapped }
  { s1 with swapped := s1.swapped ++ [victim3],
            total_swapped_out := s1.total_swapped_out + 1 }

/-- The while loop of AdvancedPolicy._handle_running_memory_pressure
(advanced_policy.py lines 336-363): while memory remains to free and the
local running copy is nonempty, pick the request with the latest last
enter_running_times entry (CPython max: first maximal on ties), drop it
from the copy, subtract its current_memory_usage from the amount still to
free, then apply the mode-specific preemption to the system state. -/
def phase2Loop (mode : PreemptionMode) (t : ℚ) :
    ℤ → SystemState → List Request → List Request →
    Except String (SystemState × List Request)
  | need, s, pool, preempted =>
    match hp : pool with
    | [] => .ok (s, preempted)
    | r :: rs =>
      if need ≤ 0 then .ok (s, preempted)
      else
        let victim := pyMaxBy lastEnterKey r rs
        let pool1 := (r :: rs).erase victim
        let need1 := need - victim.current_memory_usage
        match mode with
        | .sacrifice =>
          match performSacrifice victim s t with
          | .error e => .error e
          | .ok (s1, victim1) => phase2Loop mode t need1 s1 pool1 (preempted ++ [victim1])
        | .swap =>
          phase2Loop mode t need1 (swapOutVictim s victim t) pool1 preempted
  termination_by need s pool _ => pool.length
  decreasing_by
    all_goals
      rw [List.length_erase_of_mem (pyMaxBy_mem lastEnterKey r rs)]
      simp [Nat.lt_succ_self]

/-- AdvancedPolicy._handle_running_memory_pressure (lines 308-364): after
Phase 1 every running request will grow by one token; when the projected
occupancy exceeds M_total, free memory by preempting victims. -/
def handleRunningMemoryPressure (mode : PreemptionMode) (s : SystemState) (t : ℚ) :
    Except String (SystemState × List Request) :=
  let total_memory_after_growth := s.gpu_memory_used + (s.running.length : ℤ)
  if total_memory_after_growth ≤ s.M_total then .ok (s, [])
  else phase2Loop mode t (total_memory_after_growth - s.M_total) s s.running []

/-- The victim sequence the phase-2 loop selects, as a pure function of the
amount to free and the running copy (the state mutations of the loop do not
feed back into the selection). -/
def victimSeq : ℤ → List Request → List Request
  | need, pool =>
    match hp : pool with
    | [] => []
    | r :: rs =>
      if need ≤ 0 then []
      else
        let victim := pyMaxBy lastEnterKey r rs
        victim :: victimSeq (need - victim.current_memory_usage) ((r :: rs).erase victim)
  termination_by need pool => pool.length
  decreasing_by
    rw [List.length_erase_of_mem (pyMaxBy_mem lastEnterKey r rs)]
    simp [Nat.lt_succ_self]

/-- The in-place update req.swap_events[-1].swap_in_time = t (performed when
swap_events is nonempty, as the source guards with `if req.swap_events`). -/
def stampSwapIn (r : Request) (t : ℚ) : Request :=
  match r.swap_events.getLast? with
  | none => r
  | some ev =>
    { r with swap_events := r.swap_events.dropLast ++ [{ ev with swap_in_time := some t }] }

/-- The SWAPPED loop of AdvancedPolicy._schedule_waiting_no_preemption
(lines 236-261): walk a copy of the swapped queue in order; stop at the
first request whose memory_requirement + 1 exceeds available_memory;
otherwise remove it from swapped, admit it, bump total_swapped_in and stamp
its last swap event.  The stamp mutates the object just appended to the
running list, modelled by rewriting that last element. -/
def scheduleSwappedLoop (t : ℚ) :
    List Request → SystemState → Except String (SystemState × List Request)
  | [], s => .ok (s, [])
  | r :: rest, s =>
    if s.available_memory < r.memory_requirement + 1 then .ok (s, [])
    else
      let s0 := { s with swapped := s.swapped.erase r }
      match s0.admitToBatch r t with
      | .error e => .error e
      | .ok (s1, r1) =>
        let s2 := { s1 with total_swapped_in := s1.total_swapped_in + 1 }
        let r2 := stampSwapIn r1 t
        let s3 := { s2 with running := s2.running.dropLast ++ [r2] }
        match scheduleSwappedLoop t rest s3 with
        | .error e => .error e
        | .ok (s4, a) => .ok (s4, r2 :: a)

/-- The WAITING loop of AdvancedPolicy._schedule_waiting_no_preemption
(lines 263-288): same break-at-first-failure walk, without the swap-in
bookkeeping. -/
def scheduleWaitingLoop (t : ℚ) :
    List Request → SystemState → Except String (SystemState × List Request)
  | [], s => .ok (s, [])
  | r :: rest, s =>
    if s.available_memory < r.memory_requirement + 1 then .ok (s, [])
    else
      let s0 := { s with waiting := s.waiting.erase r }
      match s0.admitToBatch r t with
      | .error e => .error e
      | .ok (s1, r1) =>
        match scheduleWaitingLoop t rest s1 with
        | .error e => .error e
        | .ok (s2, a) => .ok (s2, r1 :: a)

/-- AdvancedPolicy._schedule_waiting_no_preemption (lines 218-290), Phase 1
of the aggressive strategy: swapped first (swap mode only), then waiting.
The batch budget B is nowhere consulted. -/
def scheduleWaitingNoPreemption (mode : PreemptionMode) (s : SystemState) (t : ℚ) :
    Except String (SystemState × List Request) := do
  let (s1, a1) ←
    if mode = PreemptionMode.swap ∧ s.swapped ≠ [] then scheduleSwappedLoop t s.swapped s
    else .ok (s, [])
  let (s2, a2) ← scheduleWaitingLoop t s1.waiting s1
  .ok (s2, a1 ++ a2)

/-- The selection loop of AdvancedPolicy._try_admit_without_preemption
(lines 454-461): walk a copy of the queue, collect every request with
memory_requirement + 1 at most available_memory, and reserve its memory by
temporarily decrementing M_total; requests that do not fit are skipped, not
a break. -/
def tryAdmitSelectLoop : List Request → SystemState → SystemState × List Request
  | [], s => (s, [])
  | r :: rest, s =>
    if r.memory_requirement + 1 ≤ s.available_memory then
      let s1 := { s with M_total := s.M_total - (r.memory_requirement + 1) }
      let (s2, a) := tryAdmitSelectLoop rest s1
      (s2, r :: a)
    else tryAdmitSelectLoop rest s

/-- Lines 463-465: restore M_total by adding back every reservation. -/
def restoreMTotal (s : SystemState) (selected : List Request) : SystemState :=
  selected.foldl
    (fun s r => { s with M_total := s.M_total + (r.memory_requirement + 1) }) s

/-- Lines 467-479: actually move every selected request out of its queue
and into the running batch; swapped admissions also bump total_swapped_in
and stamp the last swap event. -/
def conservativeActualLoop (is_swapped : Bool) (t : ℚ) :
    List Request → SystemState → Except String SystemState
  | [], s => .ok s
  | r :: rest, s =>
    if is_swapped then
      let s0 := { s with swapped := s.swapped.erase r }
      match s0.admitToBatch r t with
      | .error e => .error e
      | .ok (s1, r1) =>
        let s2 := { s1 with total_swapped_in := s1.total_swapped_in + 1 }
        let r2 := stampSwapIn r1 t
        let s3 := { s2 with running := s2.running.dropLast ++ [r2] }
        conservativeActualLoop is_swapped t rest s3
    else
      let s0 := { s with waiting := s.waiting.erase r }
      match s0.admitToBatch r t with
      | .error e => .error e
      | .ok (s1, _) => conservativeActualLoop is_swapped t rest s1

/-- AdvancedPolicy._try_admit_without_preemption (lines 447-479). -/
def tryAdmitWithoutPreemption (is_swapped : Bool) (q : List Request)
    (s : SystemState) (t : ℚ) : Except String SystemState :=
  let (s1, selected) := tryAdmitSelectLoop q s
  let s2 := restoreMTotal s1 selected
  conservativeActualLoop is_swapped t selected s2

/-- AdvancedPolicy._admission_control_conservative (lines 427-444): the
conservative strategy admits from swapped (swap mode only) then waiting and
never preempts. -/
def admissionControlConservative (mode : PreemptionMode) (s : SystemState) (t : ℚ) :
    Except String SystemState := do
  let s1 ←
    if mode = PreemptionMode.swap ∧ s.swapped ≠ [] then
      tryAdmitWithoutPreemption true s.swapped s t
    else .ok s
  tryAdmitWithoutPreemption false s1.waiting s1 t

/-- AdvancedPolicy.perform_scheduling_cycle (lines 181-216): conservative
strategy delegates to the conservative admission control; the aggressive
strategy runs Phase 1 (admission), Phase 2 (memory pressure) and Phase 3
(re-enqueue the preempted requests at the head of waiting, in order, each
with status set back to WAITING). -/
def performSchedulingCycle (mode : PreemptionMode) (strategy : PreemptionStrategy)
    (s : SystemState) (t : ℚ) : Except String SystemState :=
  match strategy with
  | .conservative => admissionControlConservative mode s t
  | .aggressive => do
    let (s1, _) ← scheduleWaitingNoPreemption mode s t
    let (s2, preempted) ← handleRunningMemoryPressure mode s1 t
    if preempted ≠ [] then
      .ok { s2 with
              waiting :=
                (preempted.map (fun r => { r with status := RequestStatus.waiting }))
                  ++ s2.waiting }
    else .ok s2

/-- System parameters of the simulator (base_simulator.py __init__):
batch-duration coefficients and the policy configuration. M_total and B
live in the SystemState. -/
structure SimConfig where
  d_0 : ℚ
  d_1 : ℚ
  mode : PreemptionMode
  strategy : PreemptionStrategy
deriving DecidableEq, Repr

/-- SystemSnapshot dataclass from src/core/system_state.py. -/
structure SystemSnapshot where
  time : ℚ
  batch_id : ℕ
  waiting_queue_ids : List ℕ
  running_ids : List ℕ
  swapped_queue_ids : List ℕ
  total_tokens_in_batch : ℤ
  gpu_memory_used : ℤ
  system_memory_total : ℤ
  batch_duration : ℚ
  next_time : ℚ
  num_completed : ℕ
  num_admitted : ℕ
  num_swapped_out : ℕ
  num_swapped_in : ℕ
  actual_batch_count : ℕ
  batch_sacrifice_count : ℕ
deriving DecidableEq, Repr

/-- SystemState.get_snapshot (system_state.py lines 241-273). -/
def SystemState.getSnapshot (s : SystemState) (time : ℚ) (batch_id : ℕ)
    (batch_duration : ℚ) : SystemSnapshot :=
  { time := time
    batch_id := batch_id
    waiting_queue_ids := s.waiting.map Request.req_id
    running_ids := s.running.map Request.req_id
    swapped_queue_ids := s.swapped.map Request.req_id
    total_tokens_in_batch :=
      if 0 < s.actual_batch_tokens then s.actual_batch_tokens else s.gpu_memory_used
    gpu_memory_used := s.gpu_memory_used
    system_memory_total := s.M_total
    batch_duration := batch_duration
    next_time := time + batch_duration
    num_completed := s.total_completed
    num_admitted := s.total_admitted
    num_swapped_out := s.total_swapped_out
    num_swapped_in := s.total_swapped_in
    actual_batch_count :=
      if 0 < s.actual_batch_count then s.actual_batch_count else s.running.length
    batch_sacrifice_count := s.batch_sacrifices }

/-- BaseSimulator.calculate_batch_duration: d_0 + d_1 times the token count
of the whole running list (batch_token_count is gpu_memory_used). -/
def calculateBatchDuration (cfg : SimConfig) (s : SystemState) : ℚ :=
  cfg.d_0 + cfg.d_1 * (s.gpu_memory_used : ℚ)

/-- calculate_batch_duration_for_requests: d_0 + d_1 times the tokens of the
actually executed batch. -/
def calculateBatchDurationForRequests (cfg : SimConfig) (batch : List Request) : ℚ :=
  cfg.d_0 + cfg.d_1 * ((batchTokens batch : ℤ) : ℚ)

/-- advance_decode_positions_for_batch: each request of the execution batch
gains one decode position.  The execution batch always consists of the
first k members of the running list (selectExecutionBatch_eq together with
greedyFit_isPre), so the in-place mutations rewrite those members. -/
def advanceFirstK (running : List Request) (k : ℕ) : List Request :=
  ((running.take k).map
    (fun r => { r with current_decode_position := r.current_decode_position + 1 }))
    ++ running.drop k

/-- SystemState.complete_request (system_state.py lines 227-239). -/
def completeRequest (s : SystemState) (r : Request) (t : ℚ) : SystemState :=
  let p := s.removeFromBatch r t
  let r2 := { p.2 with status := RequestStatus.completed, completion_time := some t }
  { p.1 with completed_requests := p.1.completed_requests ++ [r2],
             total_completed := p.1.total_completed + 1 }

/-- BaseSimulator.extract_completed_requests (lines 65-81): walk a copy of
the running list and complete every request whose decoding is done. -/
def extractCompleted (s : SystemState) (t : ℚ) : SystemState :=
  (s.running.filter (fun r => r.isCompleted)).foldl (fun s r => completeRequest s r t) s

/-- The per-run mutable state of the simulator driver. -/
structure SimState where
  state : SystemState
  time : ℚ
  batch_id : ℕ
  snapshots : List SystemSnapshot
  pending : List Request
deriving DecidableEq, Repr

/-- The state right before the snapshot is recorded: `self.state` after
step stores actual_batch_count and actual_batch_tokens from
select_execution_batch (the stored values persist in the state
afterwards). -/
def stepSnapState (st1 : SimState) : SystemState :=
  { st1.state with
      actual_batch_count := (selectExecutionBatch st1.state.B st1.state.running).1.length,
      actual_batch_tokens := (selectExecutionBatch st1.state.B st1.state.running).2 }

/-- The snapshot record_snapshot appends during a step: get_snapshot of the
state just stored, at the step's entry time and batch id, with the
batch-duration estimate of calculate_batch_duration. -/
def stepSnap (cfg : SimConfig) (st1 : SimState) : SystemSnapshot :=
  (stepSnapState st1).getSnapshot st1.time st1.batch_id
    (calculateBatchDuration cfg (stepSnapState st1))

/-- The time after the step: entry time plus the duration of the actually
executed batch (calculate_batch_duration_for_requests). -/
def stepTime (cfg : SimConfig) (st1 : SimState) : ℚ :=
  st1.time +
    calculateBatchDurationForRequests cfg
      (selectExecutionBatch st1.state.B st1.state.running).1

/-- The system state after the optional batch_sacrifices reset (step 3 of
VLLMSimulatorWithState.step only), the decode-position advance of the
execution batch and the extraction of completed requests, right before the
end-of-step scheduling cycle. -/
def stepPostExtract (resetAfterSnapshot : Bool) (cfg : SimConfig) (st1 : SimState) :
    SystemState :=
  let s3 := if resetAfterSnapshot then { stepSnapState st1 with batch_sacrifices := 0 }
            else stepSnapState st1
  let s4 := { s3 with
                running := advanceFirstK s3.running
                  (selectExecutionBatch st1.state.B st1.state.running).1.length }
  extractCompleted s4 (stepTime cfg st1)

/-- The body of a simulator step once the entry scheduling cycle has run:
return False when RUNNING is still empty, otherwise select the execution
batch, record the snapshot (resetting batch_sacrifices afterwards only
when resetAfterSnapshot), advance the executed requests, advance time and
batch id, extract completed requests, and run the end-of-step scheduling
cycle. -/
def stepBody (resetAfterSnapshot : Bool) (cfg : SimConfig) (st1 : SimState) :
    Except String (SimState × Bool) :=
  if st1.state.running = [] then .ok (st1, false)
  else
    match performSchedulingCycle cfg.mode cfg.strategy
        (stepPostExtract resetAfterSnapshot cfg st1) (stepTime cfg st1) with
    | .error e => .error e
    | .ok s6 =>
      .ok ({ state := s6, time := stepTime cfg st1, batch_id := st1.batch_id + 1,
             snapshots := st1.snapshots ++ [stepSnap cfg st1], pending := st1.pending },
           true)

/-- One step of the simulator main loop.  With resetAfterSnapshot = true
this is VLLMSimulatorWithState.step (vllm_simulator_with_state.py lines
193-240), which zeroes batch_sacrifices right after recording the
snapshot; with false it is VLLMSimulator.step (vllm_simulator.py lines
129-173), which performs no such reset.  Everything else is identical in
the two sources.  The policy operation the step invokes is
AdvancedPolicy.perform_scheduling_cycle, the single scheduling entry point
the policy exposes (the construct_next_batch name vllm_simulator.py calls
is an abstract method AdvancedPolicy never implements).  The source checks
RUNNING again only inside the it-was-empty branch; checking it
unconditionally in stepBody is equivalent because a non-empty RUNNING is
untouched in between.  Returns the updated driver state and the boolean
the Python step returns. -/
def stepSim (resetAfterSnapshot : Bool) (cfg : SimConfig) (st : SimState) :
    Except String (SimState × Bool) :=
  if st.state.running = [] ∧ st.state.waiting = [] ∧ st.state.swapped = [] then
    .ok (st, false)
  else
    match (if st.state.running = [] then
             performSchedulingCycle cfg.mode cfg.strategy st.state st.time
           else .ok st.state) with
    | .error e => .error e
    | .ok s1 => stepBody resetAfterSnapshot cfg { st with state := s1 }

/-- The arrival pump of the run loop: while the head of the pending trace
has arrived, move it to the waiting queue (add_to_waiting sets the status
before appending). -/
def arrivalPumpAux (t : ℚ) : List Request → SystemState → SystemState × List Request
  | [], s => (s, [])
  | r :: rest, s =>
    if r.arrival_time ≤ t then
      arrivalPumpAux t rest
        { s with waiting := s.waiting ++ [{ r with status := RequestStatus.waiting }] }
    else (s, r :: rest)

/-- The pump applied to the driver state. -/
def arrivalPump (st : SimState) : SimState :=
  let p := arrivalPumpAux st.time st.pending st.state
  { st with state := p.1, pending := p.2 }

/-- The main loop of VLLMSimulator.run (vllm_simulator.py lines 192-221;
identical in VLLMSimulatorWithState.run): while pending arrivals or any
queue remain, pump arrivals, fast-forward over idle gaps, and execute
steps; a step returning False breaks out of the loop.  Fuel bounds the
number of iterations: .ok none means the fuel ran out before the loop
exited, .ok (some st) that the loop exited with final driver state st. -/
def runLoop (resetAfterSnapshot : Bool) (cfg : SimConfig) :
    ℕ → SimState → Except String (Option SimState)
  | 0, _ => .ok none
  | fuel + 1, st =>
    if st.pending = [] ∧ st.state.running = [] ∧ st.state.waiting = []
        ∧ st.state.swapped = [] then
      .ok (some st)
    else
      let st1 := arrivalPump st
      if st1.state.running = [] ∧ st1.state.waiting = [] ∧ st1.state.swapped = [] then
        match st1.pending with
        | r :: _ => runLoop resetAfterSnapshot cfg fuel { st1 with time := r.arrival_time }
        | [] => .ok (some st1)
      else
        match stepSim resetAfterSnapshot cfg st1 with
        | .error e => .error e
        | .ok (st2, true) => runLoop resetAfterSnapshot cfg fuel st2
        | .ok (st2, false) => .ok (some st2)

/-- VLLMSimulator.run initialisation: sort the trace by arrival time
(Python sorted is stable) and start from an empty system state at time 0,
batch 0. -/
def initSimState (M B : ℤ) (trace : List Request) : SimState :=
  { state := { M_total := M, B := B }, time := 0, batch_id := 0, snapshots := [],
    pending := trace.mergeSort (fun a b => decide (a.arrival_time ≤ b.arrival_time)) }

theorem victimSeq_nil (need : ℤ) : victimSeq need [] = [] := by
  rw [victimSeq.eq_def]

theorem victimSeq_nonpos (need : ℤ) (pool : List Request) (h : need ≤ 0) :
    victimSeq need pool = [] := by
  rw [victimSeq.eq_def]
  cases pool <;> simp [h]

theorem victimSeq_cons (need : ℤ) (r : Request) (rs : List Request) (h : ¬ need ≤ 0) :
    victimSeq need (r :: rs) =
      pyMaxBy lastEnterKey r rs ::
        victimSeq (need - (pyMaxBy lastEnterKey r rs).current_memory_usage)
          ((r :: rs).erase (pyMaxBy lastEnterKey r rs)) := by
  rw [victimSeq.eq_def]
  simp [h]

theorem victimSeq_subset (need : ℤ) (pool : List Request) :
    ∀ x ∈ victimSeq need pool, x ∈ pool := by
  induction need, pool using victimSeq.induct with
  | case1 need => simp [victimSeq_nil]
  | case2 need r rs h => simp [victimSeq_nonpos _ _ h]
  | case3 need r rs h victim ih =>
    rw [victimSeq_cons _ _ _ h]
    intro x hx
    rcases List.mem_cons.mp hx with h1 | h1
    · subst h1
      exact pyMaxBy_mem lastEnterKey r rs
    · exact List.mem_of_mem_erase (ih x h1)

theorem victimSeq_sorted (need : ℤ) (pool : List Request) :
    List.Pairwise (fun a b => lastEnterKey b ≤ lastEnterKey a) (victimSeq need pool) := by
  induction need, pool using victimSeq.induct with
  | case1 need => simp [victimSeq_nil]
  | case2 need r rs h => simp [victimSeq_nonpos _ _ h]
  | case3 need r rs h victim ih =>
    rw [victimSeq_cons _ _ _ h]
    refine List.pairwise_cons.mpr ⟨?_, ih⟩
    intro b hb
    have hbpool : b ∈ (r :: rs).erase (pyMaxBy lastEnterKey r rs) :=
      victimSeq_subset _ _ b hb
    exact pyMaxBy_le lastEnterKey r rs b (List.mem_of_mem_erase hbpool)

/-- Combined usage of a list of requests. -/
def usageSum (l : List Request) : ℤ :=
  (l.map Request.current_memory_usage).sum

theorem victimSeq_enough (need : ℤ) (pool : List Request) :
    need ≤ usageSum (victimSeq need pool) ∨
      (victimSeq need pool).length = pool.length := by
  induction need, pool using victimSeq.induct with
  | case1 need =>
    right
    simp [victimSeq_nil]
  | case2 need r rs h =>
    left
    simp [victimSeq_nonpos _ _ h, usageSum]
    omega
  | case3 need r rs h victim ih =>
    have hv : victim = pyMaxBy lastEnterKey r rs := rfl
    rw [hv] at ih
    rw [victimSeq_cons _ _ _ h]
    rcases ih with h1 | h1
    · left
      simp [usageSum] at h1 ⊢
      omega
    · right
      simp only [List.length_cons, h1,
        List.length_erase_of_mem (pyMaxBy_mem lastEnterKey r rs)]
      have : (r :: rs).length = rs.length + 1 := by simp
      omega

theorem victimSeq_minimal (need : ℤ) (pool : List Request) :
    ∀ k < (victimSeq need pool).length,
      usageSum ((victimSeq need pool).take k) < need := by
  induction need, pool using victimSeq.induct with
  | case1 need => simp [victimSeq_nil]
  | case2 need r rs h => simp [victimSeq_nonpos _ _ h]
  | case3 need r rs h victim ih =>
    have hv : victim = pyMaxBy lastEnterKey r rs := rfl
    rw [hv] at ih
    rw [victimSeq_cons _ _ _ h]
    intro k hk
    cases k with
    | zero =>
      simp [usageSum]
      omega
    | succ k =>
      simp only [List.length_cons, Nat.succ_lt_succ_iff] at hk
      have := ih k hk
      simp only [List.take_succ_cons, usageSum, List.map_cons, List.sum_cons]
      simp only [usageSum] at this
      omega

theorem victimSeq_ne_nil (need : ℤ) (r : Request) (rs : List Request) (h : 0 < need) :
    victimSeq need (r :: rs) ≠ [] := by
  rw [victimSeq_cons _ _ _ (by omega)]
  simp

theorem pyMaxBy_first_max (key : Request → ℚ) (x : Request) (xs : List Request) :
    ∃ l1 l2, x :: xs = l1 ++ pyMaxBy key x xs :: l2 ∧
      ∀ y ∈ l1, key y < key (pyMaxBy key x xs) := by
  induction xs generalizing x with
  | nil => exact ⟨[], [], by simp [pyMaxBy], by simp⟩
  | cons y ys ih =>
    have hstep : pyMaxBy key x (y :: ys) =
        pyMaxBy key (if key x < key y then y else x) ys := by
      simp [pyMaxBy]
    by_cases h : key x < key y
    · obtain ⟨l1, l2, hdec, hlt⟩ := ih y
      refine ⟨x :: l1, l2, ?_, ?_⟩
      · rw [hstep, if_pos h]
        simpa using hdec
      · intro z hz
        rw [hstep, if_pos h]
        rcases List.mem_cons.mp hz with rfl | hz2
        · exact lt_of_lt_of_le h (pyMaxBy_acc_le key ys y)
        · exact hlt z hz2
    · obtain ⟨l1, l2, hdec, hlt⟩ := ih x
      cases l1 with
      | nil =>
        simp only [List.nil_append] at hdec
        have hm : pyMaxBy key x ys = x := (List.cons.injEq _ _ _ _ ▸ hdec).1.symm
        have hl2 : l2 = ys := (List.cons.injEq _ _ _ _ ▸ hdec).2.symm
        refine ⟨[], y :: ys, ?_, by simp⟩
        rw [hstep, if_neg h, hm]
        simp
      | cons a l1' =>
        have ha : a = x := by
          have := congrArg (fun l => l.head?) hdec
          simpa using this.symm
        have hys : ys = l1' ++ pyMaxBy key x ys :: l2 := by
          have := congrArg (fun l => l.tail) hdec
          simpa using this
        have hxlt : key x < key (pyMaxBy key x ys) := by
          have := hlt a (by simp)
          rwa [ha] at this
        refine ⟨x :: y :: l1', l2, ?_, ?_⟩
        · rw [hstep, if_neg h]
          simpa using hys
        · intro z hz
          rw [hstep, if_neg h]
          rcases List.mem_cons.mp hz with rfl | hz2
          · exact hxlt
          · rcases List.mem_cons.mp hz2 with rfl | hz3
            · exact lt_of_le_of_lt (le_of_not_lt h) hxlt
            · have := hlt z (by simp [ha, hz3])
              exact this

/-- _perform_sacrifice always raises: the kwargs it passes to
SacrificeEvent are not all fields of the dataclass. -/
theorem performSacrifice_error (victim : Request) (s : SystemState) (t : ℚ) :
    performSacrifice victim s t =
      .error "TypeError: SacrificeEvent got an unexpected keyword argument" := by
  have h : ¬ (performSacrificeKwargNames.all
      (fun k => sacrificeEventFieldNames.contains k) = true) := by decide
  simp only [performSacrifice, mkSacrificeEvent, if_neg h]

/-- Claim C4 (code bug): every sacrifice the policy performs raises.
AdvancedPolicy._perform_sacrifice passes the keyword arguments
running_count_same_position and total_running_count to SacrificeEvent, but
the dataclass in core/request.py declares only time, decode_position and
memory_freed, so the construction raises TypeError before any event is
appended, before the victim leaves the batch and before its decode
position is reset. -/
theorem perform_sacrifice_raises (victim : Request) (s : SystemState) (t : ℚ) :
    performSacrifice victim s t =
      .error "TypeError: SacrificeEvent got an unexpected keyword argument" := by
  have h : ¬ (performSacrificeKwargNames.all
      (fun k => sacrificeEventFieldNames.contains k) = true) := by decide
  simp only [performSacrifice, mkSacrificeEvent, if_neg h]

theorem phase2Loop_nil (mode : PreemptionMode) (t : ℚ) (need : ℤ) (s : SystemState)
    (acc : List Request) : phase2Loop mode t need s [] acc = .ok (s, acc) := by
  rw [phase2Loop.eq_def]

theorem phase2Loop_nonpos (mode : PreemptionMode) (t : ℚ) (need : ℤ) (s : SystemState)
    (pool acc : List Request) (h : need ≤ 0) :
    phase2Loop mode t need s pool acc = .ok (s, acc) := by
  rw [phase2Loop.eq_def]
  cases pool <;> simp [h]

theorem phase2Loop_sacrifice_raises (t : ℚ) (need : ℤ) (s : SystemState)
    (r : Request) (rs : List Request) (acc : List Request) (h : ¬ need ≤ 0) :
    phase2Loop .sacrifice t need s (r :: rs) acc =
      .error "TypeError: SacrificeEvent got an unexpected keyword argument" := by
  rw [phase2Loop.eq_def]
  simp [h, performSacrifice_error]


theorem phase2Loop_swap_cons (t : ℚ) (need : ℤ) (s : SystemState)
    (r : Request) (rs acc : List Request) (h : ¬ need ≤ 0) :
    phase2Loop .swap t need s (r :: rs) acc =
      phase2Loop .swap t (need - (pyMaxBy lastEnterKey r rs).current_memory_usage)
        (swapOutVictim s (pyMaxBy lastEnterKey r rs) t)
        ((r :: rs).erase (pyMaxBy lastEnterKey r rs)) acc := by
  rw [phase2Loop.eq_def]
  simp [h]

theorem swapOutVictim_running (s : SystemState) (v : Request) (t : ℚ) :
    (swapOutVictim s v t).running = s.running.erase v := by
  by_cases h : v ∈ s.running
  · simp [swapOutVictim, h]
  · simp [swapOutVictim, h, List.erase_of_not_mem h]

theorem swapOutVictim_fields (s : SystemState) (v : Request) (t : ℚ) :
    (swapOutVictim s v t).M_total = s.M_total ∧
    (swapOutVictim s v t).B = s.B ∧
    (swapOutVictim s v t).waiting = s.waiting ∧
    (swapOutVictim s v t).completed_requests = s.completed_requests ∧
    (swapOutVictim s v t).total_completed = s.total_completed ∧
    (swapOutVictim s v t).total_admitted = s.total_admitted ∧
    (swapOutVictim s v t).total_swapped_in = s.total_swapped_in ∧
    (swapOutVictim s v t).total_sacrifices = s.total_sacrifices ∧
    (swapOutVictim s v t).batch_sacrifices = s.batch_sacrifices ∧
    (swapOutVictim s v t).total_swapped_out = s.total_swapped_out + 1 ∧
    (swapOutVictim s v t).swapped.map Request.req_id =
      s.swapped.map Request.req_id ++ [v.req_id] := by
  by_cases h : v ∈ s.running <;> simp [swapOutVictim, h]

/-- Full description of the swap-mode phase-2 loop: it never raises, it
returns the preempted accumulator unchanged (swap victims are not put into
the Phase-3 list), the victims it moves to the swapped queue are exactly
victimSeq in order, they are erased from the running list one by one, and
everything else in the state is untouched except total_swapped_out. -/
theorem phase2Loop_swap_spec (t : ℚ) :
    ∀ (n : ℕ) (pool : List Request) (need : ℤ) (s : SystemState) (acc : List Request),
      pool.length = n →
      ∃ s', phase2Loop .swap t need s pool acc = .ok (s', acc) ∧
        s'.swapped.map Request.req_id =
          s.swapped.map Request.req_id ++ (victimSeq need pool).map Request.req_id ∧
        s'.total_swapped_out = s.total_swapped_out + (victimSeq need pool).length ∧
        s'.running = (victimSeq need pool).foldl (fun l v => l.erase v) s.running ∧
        s'.M_total = s.M_total ∧ s'.B = s.B ∧ s'.waiting = s.waiting ∧
        s'.completed_requests = s.completed_requests ∧
        s'.total_completed = s.total_completed ∧
        s'.total_admitted = s.total_admitted ∧
        s'.total_swapped_in = s.total_swapped_in ∧
        s'.total_sacrifices = s.total_sacrifices ∧
        s'.batch_sacrifices = s.batch_sacrifices := by
  intro n
  induction n using Nat.strong_induction_on with
  | _ n ih =>
    intro pool need s acc hlen
    cases pool with
    | nil =>
      refine ⟨s, phase2Loop_nil _ _ _ _ _, ?_⟩
      simp [victimSeq_nil]
    | cons r rs =>
      by_cases h : need ≤ 0
      · refine ⟨s, phase2Loop_nonpos _ _ _ _ _ _ h, ?_⟩
        simp [victimSeq_nonpos _ _ h]
      · rw [phase2Loop_swap_cons _ _ _ _ _ _ h, victimSeq_cons _ _ _ h]
        have hmem := pyMaxBy_mem lastEnterKey r rs
        have hlen2 : ((r :: rs).erase (pyMaxBy lastEnterKey r rs)).length < n := by
          rw [List.length_erase_of_mem hmem]
          simp only [List.length_cons] at hlen ⊢
          omega
        obtain ⟨s', heq, hsw, hout, hrun, hrest⟩ :=
          ih _ hlen2 ((r :: rs).erase (pyMaxBy lastEnterKey r rs))
            (need - (pyMaxBy lastEnterKey r rs).current_memory_usage)
            (swapOutVictim s (pyMaxBy lastEnterKey r rs) t) acc rfl
        obtain ⟨hM, hB, hW, hC, hTC, hTA, hTSI, hTS, hBS, hTSO, hSW⟩ :=
          swapOutVictim_fields s (pyMaxBy lastEnterKey r rs) t
        refine ⟨s', heq, ?_, ?_, ?_, ?_⟩
        · rw [hsw, hSW]
          simp
        · rw [hout, hTSO]
          simp
          omega
        · rw [hrun, swapOutVictim_running]
          simp
        · obtain ⟨hM2, hB2, hW2, hC2, hTC2, hTA2, hTSI2, hTS2, hBS2⟩ := hrest
          exact ⟨hM2.trans hM, hB2.trans hB, hW2.trans hW, hC2.trans hC,
            hTC2.trans hTC, hTA2.trans hTA, hTSI2.trans hTSI, hTS2.trans hTS,
            hBS2.trans hBS⟩

/-- Claim C2: behaviour of Phase 2 of the aggressive scheduling cycle.
When the projected occupancy gpu_memory_used + |running| stays within
M_total, Phase 2 preempts nothing in either mode.  When it exceeds
M_total, in sacrifice mode the cycle raises TypeError at the first victim
(the SacrificeEvent constructor bug, claim C4), so no preemption completes;
in swap mode the victims are exactly victimSeq: taken in non-increasing
order of their last enter_running_times entry, accumulated until their
combined current_memory_usage reaches the excess or the running list is
exhausted, each moved from running to the swapped queue. -/
theorem handle_running_memory_pressure_spec (s : SystemState) (t : ℚ)
    (hM : 0 ≤ s.M_total) :
    (s.gpu_memory_used + (s.running.length : ℤ) ≤ s.M_total →
      handleRunningMemoryPressure .swap s t = .ok (s, []) ∧
      handleRunningMemoryPressure .sacrifice s t = .ok (s, [])) ∧
    (s.M_total < s.gpu_memory_used + (s.running.length : ℤ) →
      handleRunningMemoryPressure .sacrifice s t =
        .error "TypeError: SacrificeEvent got an unexpected keyword argument" ∧
      (let need := s.gpu_memory_used + (s.running.length : ℤ) - s.M_total
       let vs := victimSeq need s.running
       vs ≠ [] ∧
       List.Pairwise (fun a b => lastEnterKey b ≤ lastEnterKey a) vs ∧
       (need ≤ usageSum vs ∨ vs.length = s.running.length) ∧
       (∀ k < vs.length, usageSum (vs.take k) < need) ∧
       ∃ s', handleRunningMemoryPressure .swap s t = .ok (s', []) ∧
         s'.swapped.map Request.req_id =
           s.swapped.map Request.req_id ++ vs.map Request.req_id ∧
         s'.total_swapped_out = s.total_swapped_out + vs.length ∧
         s'.running = vs.foldl (fun l v => l.erase v) s.running)) := by
  constructor
  · intro hle
    constructor <;> simp [handleRunningMemoryPressure, hle]
  · intro hgt
    have hrun : s.running ≠ [] := by
      intro hnil
      rw [hnil] at hgt
      simp [SystemState.gpu_memory_used, hnil] at hgt
      omega
    have hneed : 0 < s.gpu_memory_used + (s.running.length : ℤ) - s.M_total := by
      omega
    obtain ⟨r, rs, hcons⟩ := List.exists_cons_of_ne_nil hrun
    have hneed2 := hneed
    rw [hcons] at hneed2
    constructor
    · rw [handleRunningMemoryPressure]
      simp only [if_neg (by omega : ¬ s.gpu_memory_used + (s.running.length : ℤ) ≤ s.M_total)]
      rw [hcons]
      exact phase2Loop_sacrifice_raises _ _ _ _ _ _ (by omega)
    · refine ⟨?_, victimSeq_sorted _ _, victimSeq_enough _ _, victimSeq_minimal _ _, ?_⟩
      · rw [hcons]
        exact victimSeq_ne_nil _ _ _ hneed2
      · obtain ⟨s', heq, hsw, hout, hrunning, _⟩ :=
          phase2Loop_swap_spec t s.running.length s.running
            (s.gpu_memory_used + (s.running.length : ℤ) - s.M_total) s [] rfl
        refine ⟨s', ?_, hsw, hout, hrunning⟩
        rw [handleRunningMemoryPressure]
        simp only [if_neg (by omega : ¬ s.gpu_memory_used + (s.running.length : ℤ) ≤ s.M_total)]
        exact heq

/-- Concrete requests for the victim-selection scenarios: two RUNNING
requests with identical last enter-running times (a tie), the first at
index 0 and the second at index 1 of the running list. -/
def tieReqA : Request :=
  { req_id := 0, arrival_time := 0, prefill_length := 1, decode_length := 5,
    status := .running, current_decode_position := 0, enter_running_times := [5] }

def tieReqB : Request :=
  { tieReqA with req_id := 1 }

def tieState : SystemState :=
  { M_total := 3, B := 10, running := [tieReqA, tieReqB] }

/-- Witness for C2 at a concrete input: tieState projects 2 + 2 = 4 tokens
against M_total = 3, so sacrifice mode raises and swap mode swaps out
exactly one victim. -/
theorem handle_running_memory_pressure_spec_witness :
    handleRunningMemoryPressure .sacrifice tieState 5 =
      .error "TypeError: SacrificeEvent got an unexpected keyword argument" := by
  have h := (handle_running_memory_pressure_spec tieState 5 (by decide)).2
  exact (h (by decide)).1

/-- Claim C8 (corrected): the LIFO victim selection of the aggressive
Phase-2 loop breaks ties toward the EARLIER index, not the later one: the
first victim evicted is the first request of the RUNNING list attaining
the maximal last enter-running time (CPython max keeps the earliest
maximal element; sorted(reverse=True) is stable as well), and in
particular among requests with equal last-entry times the one at the
smaller index is evicted first. -/
theorem victim_tiebreak_earliest (need : ℤ) (pool : List Request)
    (hneed : 0 < need) (hpool : pool ≠ []) :
    ∃ v rest l1 l2, victimSeq need pool = v :: rest ∧
      pool = l1 ++ v :: l2 ∧
      (∀ y ∈ l1, lastEnterKey y < lastEnterKey v) ∧
      (∀ y ∈ pool, lastEnterKey y ≤ lastEnterKey v) := by
  cases pool with
  | nil => simp at hpool
  | cons r rs =>
    rw [victimSeq_cons _ _ _ (by omega)]
    obtain ⟨l1, l2, hdec, hlt⟩ := pyMaxBy_first_max lastEnterKey r rs
    exact ⟨_, _, l1, l2, rfl, hdec, hlt, pyMaxBy_le lastEnterKey r rs⟩

/-- Witness for C8 at a concrete input: with a two-request tie at the head
of RUNNING the selected victim is the index-0 request. -/
theorem victim_tiebreak_earliest_witness :
    ∃ v rest l1 l2, victimSeq 1 [tieReqA, tieReqB] = v :: rest ∧
      [tieReqA, tieReqB] = l1 ++ v :: l2 ∧
      (∀ y ∈ l1, lastEnterKey y < lastEnterKey v) ∧
      (∀ y ∈ [tieReqA, tieReqB], lastEnterKey y ≤ lastEnterKey v) :=
  victim_tiebreak_earliest 1 [tieReqA, tieReqB] (by decide) (by decide)

/-- Counterexample to claim C8 as stated: in tieState the two RUNNING
requests have equal last enter-running times, one token must be freed, and
the evicted victim is the request at index 0 (req_id 0), not the one at
the later index (req_id 1). -/
theorem victim_tiebreak_counterexample :
    lastEnterKey tieReqA = lastEnterKey tieReqB ∧
    tieState.running.map Request.req_id = [0, 1] ∧
    ∃ s', handleRunningMemoryPressure .swap tieState 5 = .ok (s', []) ∧
      s'.swapped.map Request.req_id = [0] ∧
      s'.swapped.map Request.req_id ≠ [1] := by
  refine ⟨rfl, rfl, ?_⟩
  obtain ⟨s', heq, hsw, -, -⟩ :=
    phase2Loop_swap_spec 5 tieState.running.length tieState.running 1 tieState [] rfl
  have hvs : victimSeq 1 tieState.running = [tieReqA] := by
    show victimSeq 1 [tieReqA, tieReqB] = [tieReqA]
    rw [victimSeq_cons _ _ _ (by omega)]
    have hmax : pyMaxBy lastEnterKey tieReqA [tieReqB] = tieReqA := by
      simp [pyMaxBy, lastEnterKey, tieReqA, tieReqB]
    rw [hmax]
    have herase : ([tieReqA, tieReqB].erase tieReqA) = [tieReqB] := by decide
    rw [herase]
    rw [victimSeq_nonpos _ _ (by decide)]
  have hcall : handleRunningMemoryPressure .swap tieState 5 =
      phase2Loop .swap 5 1 tieState tieState.running [] := by
    rw [handleRunningMemoryPressure]
    have hc : ¬ tieState.gpu_memory_used + (tieState.running.length : ℤ)
        ≤ tieState.M_total := by decide
    rw [if_neg hc]
    have h1 : tieState.gpu_memory_used + (tieState.running.length : ℤ)
        - tieState.M_total = 1 := by decide
    rw [h1]
  refine ⟨s', hcall.trans heq, ?_, ?_⟩
  · rw [hsw, hvs]
    rfl
  · rw [hsw, hvs]
    decide

/-- The value a request holds right after admit_to_batch stamps it. -/
def admitStamp (r : Request) (t : ℚ) : Request :=
  { r with status := .running, enter_running_times := r.enter_running_times ++ [t] }

theorem admitStamp_memory (r : Request) (t : ℚ) :
    (admitStamp r t).current_memory_usage = r.memory_requirement := by
  simp [admitStamp, Request.current_memory_usage, Request.memory_requirement]

theorem admitToBatch_ok (s : SystemState) (r : Request) (t : ℚ)
    (h : r.memory_requirement ≤ s.available_memory) :
    s.admitToBatch r t =
      .ok ({ s with running := s.running ++ [admitStamp r t],
                    total_admitted := s.total_admitted + 1 }, admitStamp r t) := by
  simp [SystemState.admitToBatch, SystemState.canAdmit, h, admitStamp]

theorem gpu_append (s : SystemState) (l : List Request) :
    SystemState.gpu_memory_used { s with running := s.running ++ l } =
      s.gpu_memory_used + (l.map Request.current_memory_usage).sum := by
  simp [SystemState.gpu_memory_used]

/-- Spec-side Phase-1 admission walk, written from the words of claim C3:
a request is admitted exactly when all requests before it in its queue
were admitted and its memory_requirement + 1 is at most the available
memory at its turn (each admission lowers the available memory by the
admitted memory_requirement); the first failure stops the walk, so a
smaller later request is not admitted. -/
def specStopAdmit (avail : ℤ) : List Request → List Request
  | [] => []
  | r :: rest =>
    if r.memory_requirement + 1 ≤ avail then
      r :: specStopAdmit (avail - r.memory_requirement) rest
    else []

theorem stampSwapIn_memory (r : Request) (t : ℚ) :
    (stampSwapIn r t).current_memory_usage = r.current_memory_usage ∧
    (stampSwapIn r t).req_id = r.req_id := by
  unfold stampSwapIn
  cases r.swap_events.getLast? <;>
    simp [Request.current_memory_usage]

theorem scheduleWaitingLoop_spec (t : ℚ) (q : List Request) :
    ∀ s : SystemState,
      scheduleWaitingLoop t q s =
        .ok ({ s with
                running := s.running ++
                  (specStopAdmit s.available_memory q).map (fun r => admitStamp r t),
                waiting := (specStopAdmit s.available_memory q).foldl
                  (fun l r => l.erase r) s.waiting,
                total_admitted :=
                  s.total_admitted + (specStopAdmit s.available_memory q).length },
             (specStopAdmit s.available_memory q).map (fun r => admitStamp r t)) := by
  induction q with
  | nil => intro s; simp [scheduleWaitingLoop, specStopAdmit]
  | cons r rest ih =>
    intro s
    by_cases h : r.memory_requirement + 1 ≤ s.available_memory
    · have hadm : r.memory_requirement ≤
          SystemState.available_memory { s with waiting := s.waiting.erase r } := by
        simp [SystemState.available_memory, SystemState.gpu_memory_used] at h ⊢
        omega
      rw [scheduleWaitingLoop, if_neg (by omega)]
      simp only [admitToBatch_ok _ _ _ hadm, ih]
      have havail : SystemState.available_memory
          { s with waiting := s.waiting.erase r,
                   running := s.running ++ [admitStamp r t],
                   total_admitted := s.total_admitted + 1 } =
          s.available_memory - r.memory_requirement := by
        simp [SystemState.available_memory, SystemState.gpu_memory_used, admitStamp_memory]
        ring
      rw [specStopAdmit, if_pos h]
      simp only [havail, List.map_cons, List.foldl_cons, List.length_cons]
      simp
      omega
    · rw [scheduleWaitingLoop, if_pos (by omega), specStopAdmit, if_neg h]
      simp

theorem scheduleSwappedLoop_spec (t : ℚ) (q : List Request) :
    ∀ s : SystemState,
      scheduleSwappedLoop t q s =
        .ok ({ s with
                running := s.running ++
                  (specStopAdmit s.available_memory q).map
                    (fun r => stampSwapIn (admitStamp r t) t),
                swapped := (specStopAdmit s.available_memory q).foldl
                  (fun l r => l.erase r) s.swapped,
                total_admitted :=
                  s.total_admitted + (specStopAdmit s.available_memory q).length,
                total_swapped_in :=
                  s.total_swapped_in + (specStopAdmit s.available_memory q).length },
             (specStopAdmit s.available_memory q).map
               (fun r => stampSwapIn (admitStamp r t) t)) := by
  induction q with
  | nil => intro s; simp [scheduleSwappedLoop, specStopAdmit]
  | cons r rest ih =>
    intro s
    by_cases h : r.memory_requirement + 1 ≤ s.available_memory
    · have hadm : r.memory_requirement ≤
          SystemState.available_memory { s with swapped := s.swapped.erase r } := by
        simp [SystemState.available_memory, SystemState.gpu_memory_used] at h ⊢
        omega
      rw [scheduleSwappedLoop, if_neg (by omega)]
      simp only [admitToBatch_ok _ _ _ hadm]
      have hdrop : ∀ l : List Request, ∀ x : Request, (l ++ [x]).dropLast = l := by
        intro l x
        simp
      simp only [hdrop, ih]
      have havail : SystemState.available_memory
          { s with swapped := s.swapped.erase r,
                   running := s.running ++ [stampSwapIn (admitStamp r t) t],
                   total_admitted := s.total_admitted + 1,
                   total_swapped_in := s.total_swapped_in + 1 } =
          s.available_memory - r.memory_requirement := by
        simp [SystemState.available_memory, SystemState.gpu_memory_used,
          (stampSwapIn_memory _ _).1, admitStamp_memory]
        ring
      rw [specStopAdmit, if_pos h]
      simp only [havail, List.map_cons, List.foldl_cons, List.length_cons]
      simp
      omega
    · rw [scheduleSwappedLoop, if_pos (by omega), specStopAdmit, if_neg h]
      simp

theorem swapInTransform_memory (r : Request) (t : ℚ) :
    (stampSwapIn (admitStamp r t) t).current_memory_usage = r.memory_requirement ∧
    (stampSwapIn (admitStamp r t) t).req_id = r.req_id := by
  refine ⟨?_, (stampSwapIn_memory _ _).2.trans ?_⟩
  · exact (stampSwapIn_memory _ _).1.trans (admitStamp_memory r t)
  · simp [admitStamp]

/-- Closed form of Phase 1 (_schedule_waiting_no_preemption): the swapped
pass (swap mode only) admits specStopAdmit of the swapped queue at the
entry available memory, then the waiting pass admits specStopAdmit of the
waiting queue at the reduced available memory. -/
theorem scheduleWaitingNoPreemption_spec (mode : PreemptionMode) (s : SystemState)
    (t : ℚ) :
    scheduleWaitingNoPreemption mode s t =
      (let specS := if mode = PreemptionMode.swap then
          specStopAdmit s.available_memory s.swapped else []
       let availW := s.available_memory - (specS.map Request.memory_requirement).sum
       let specW := specStopAdmit availW s.waiting
       .ok ({ s with
               running := s.running ++
                 specS.map (fun r => stampSwapIn (admitStamp r t) t) ++
                 specW.map (fun r => admitStamp r t),
               swapped := specS.foldl (fun l r => l.erase r) s.swapped,
               waiting := specW.foldl (fun l r => l.erase r) s.waiting,
               total_admitted := s.total_admitted + specS.length + specW.length,
               total_swapped_in := s.total_swapped_in + specS.length },
            specS.map (fun r => stampSwapIn (admitStamp r t) t) ++
              specW.map (fun r => admitStamp r t))) := by
  have husage : ∀ l : List Request,
      ((l.map (fun r => stampSwapIn (admitStamp r t) t)).map
        Request.current_memory_usage).sum = (l.map Request.memory_requirement).sum := by
    intro l
    rw [List.map_map]
    congr 1
    exact List.map_congr_left (fun r _ => (swapInTransform_memory r t).1)
  by_cases hmode : mode = PreemptionMode.swap ∧ s.swapped ≠ []
  · obtain ⟨hm, hsw⟩ := hmode
    subst hm
    rw [scheduleWaitingNoPreemption,
      if_pos (show PreemptionMode.swap = PreemptionMode.swap ∧ s.swapped ≠ [] from
        ⟨rfl, hsw⟩)]
    rw [scheduleSwappedLoop_spec]
    simp only [bind, Except.bind]
    rw [scheduleWaitingLoop_spec]
    have havail : SystemState.available_memory
        { s with
            running := s.running ++
              (specStopAdmit s.available_memory s.swapped).map
                (fun r => stampSwapIn (admitStamp r t) t),
            swapped := (specStopAdmit s.available_memory s.swapped).foldl
              (fun l r => l.erase r) s.swapped,
            total_admitted :=
              s.total_admitted + (specStopAdmit s.available_memory s.swapped).length,
            total_swapped_in :=
              s.total_swapped_in + (specStopAdmit s.available_memory s.swapped).length } =
        s.available_memory -
          ((specStopAdmit s.available_memory s.swapped).map
            Request.memory_requirement).sum := by
      simp only [SystemState.available_memory, SystemState.gpu_memory_used,
        List.map_append, List.sum_append, husage]
      ring
    simp only [havail, if_pos rfl, Except.ok.injEq]
    simp
  · rw [scheduleWaitingNoPreemption]
    rw [if_neg hmode]
    have hspecS : (if mode = PreemptionMode.swap then
        specStopAdmit s.available_memory s.swapped else []) = [] := by
      by_cases hm : mode = PreemptionMode.swap
      · have hsw : s.swapped = [] := by
          by_contra hne
          exact hmode ⟨hm, hne⟩
        simp [hm, hsw, specStopAdmit]
      · simp [hm]
    simp only [bind, Except.bind]
    rw [scheduleWaitingLoop_spec]
    simp only [hspecS]
    simp


theorem available_setB (s : SystemState) (b : ℤ) :
    SystemState.available_memory { s with B := b } = s.available_memory := by
  simp [SystemState.available_memory, SystemState.gpu_memory_used]

/-- Claim C3: in the aggressive Phase 1, requests are admitted from
SWAPPED (swap mode only) and then WAITING in queue order; a request is
admitted exactly when every request before it in its queue was admitted
and its memory_requirement + 1 is at most the available memory at its
turn (specStopAdmit is that walk, written from the claim: it stops at the
first failure, so a smaller later request is not admitted); and the batch
budget B is never consulted: running Phase 1 with any overridden B admits
the same requests and produces the same state up to the stored B. -/
theorem phase1_admission_spec (mode : PreemptionMode) (s : SystemState) (t : ℚ) :
    let specS := if mode = PreemptionMode.swap then
      specStopAdmit s.available_memory s.swapped else []
    let specW := specStopAdmit
      (s.available_memory - (specS.map Request.memory_requirement).sum) s.waiting
    let admitted := specS.map (fun r => stampSwapIn (admitStamp r t) t) ++
      specW.map (fun r => admitStamp r t)
    ∃ s', scheduleWaitingNoPreemption mode s t = .ok (s', admitted) ∧
      admitted.map Request.req_id = (specS ++ specW).map Request.req_id ∧
      s'.running = s.running ++ admitted ∧
      ∀ b : ℤ, scheduleWaitingNoPreemption mode { s with B := b } t =
        .ok ({ s' with B := b }, admitted) := by
  intro specS specW admitted
  have hswapT : ∀ l : List Request,
      (l.map (fun r => stampSwapIn (admitStamp r t) t)).map Request.req_id =
        l.map Request.req_id := by
    intro l
    induction l with
    | nil => rfl
    | cons x xs ih => simp [ih, (swapInTransform_memory x t).2]
  have hadmitT : ∀ l : List Request,
      (l.map (fun r => admitStamp r t)).map Request.req_id = l.map Request.req_id := by
    intro l
    induction l with
    | nil => rfl
    | cons x xs ih => simp [ih, admitStamp]
  have hids : admitted.map Request.req_id = (specS ++ specW).map Request.req_id := by
    simp only [admitted, List.map_append, hswapT, hadmitT]
  refine ⟨_, scheduleWaitingNoPreemption_spec mode s t, hids, by simp, ?_⟩
  intro b
  rw [scheduleWaitingNoPreemption_spec]
  simp only [available_setB]

/-- Spec-side conservative admission walk, from the words of claim C7: a
request is selected exactly when its memory_requirement + 1 fits within
the available memory remaining after the reservations (memory_requirement
+ 1 each) of the earlier selections of the same pass; requests that do
not fit are skipped, not a stop, so a smaller later request may still be
selected. -/
def conservativeSelectSpec (avail : ℤ) : List Request → List Request
  | [] => []
  | r :: rest =>
    if r.memory_requirement + 1 ≤ avail then
      r :: conservativeSelectSpec (avail - (r.memory_requirement + 1)) rest
    else conservativeSelectSpec avail rest

theorem tryAdmitSelectLoop_spec (q : List Request) :
    ∀ s : SystemState,
      tryAdmitSelectLoop q s =
        ({ s with M_total := s.M_total -
            ((conservativeSelectSpec s.available_memory q).map
              (fun r => r.memory_requirement + 1)).sum },
         conservativeSelectSpec s.available_memory q) := by
  induction q with
  | nil =>
    intro s
    simp [tryAdmitSelectLoop, conservativeSelectSpec]
  | cons r rest ih =>
    intro s
    by_cases h : r.memory_requirement + 1 ≤ s.available_memory
    · rw [tryAdmitSelectLoop, if_pos h]
      simp only [ih]
      have havail : SystemState.available_memory
          { s with M_total := s.M_total - (r.memory_requirement + 1) } =
          s.available_memory - (r.memory_requirement + 1) := by
        simp [SystemState.available_memory, SystemState.gpu_memory_used]
        ring
      rw [conservativeSelectSpec, if_pos h]
      simp only [havail, List.map_cons, List.sum_cons, Prod.mk.injEq]
      refine ⟨?_, trivial⟩
      simp
      ring
    · rw [tryAdmitSelectLoop, if_neg h, ih, conservativeSelectSpec, if_neg h]

theorem restoreMTotal_spec (l : List Request) :
    ∀ s : SystemState,
      restoreMTotal s l =
        { s with M_total := s.M_total + (l.map (fun r => r.memory_requirement + 1)).sum } := by
  induction l with
  | nil => intro s; simp [restoreMTotal]
  | cons r rest ih =>
    intro s
    show restoreMTotal { s with M_total := s.M_total + (r.memory_requirement + 1) } rest = _
    rw [ih]
    simp
    ring

/-- The sequential fit condition the actual admission loop needs: each
request fits (memory_requirement at most the available memory) with the
available memory reduced by each earlier admitted memory_requirement. -/
def chainFits (avail : ℤ) : List Request → Prop
  | [] => True
  | r :: rest => r.memory_requirement + 1 ≤ avail ∧
      chainFits (avail - r.memory_requirement) rest

/-- The stronger chain the selection guarantees (reservations count the
+1 as well). -/
def strongChain (avail : ℤ) : List Request → Prop
  | [] => True
  | r :: rest => r.memory_requirement + 1 ≤ avail ∧
      strongChain (avail - (r.memory_requirement + 1)) rest

theorem chainFits_mono (l : List Request) :
    ∀ a b : ℤ, a ≤ b → chainFits a l → chainFits b l := by
  induction l with
  | nil => intro a b _ _; trivial
  | cons r rest ih =>
    intro a b hab h
    obtain ⟨h1, h2⟩ := h
    exact ⟨by omega, ih _ _ (by omega) h2⟩

theorem strongChain_fits (l : List Request) :
    ∀ avail : ℤ, strongChain avail l → chainFits avail l := by
  induction l with
  | nil => intro avail _; trivial
  | cons r rest ih =>
    intro avail h
    obtain ⟨h1, h2⟩ := h
    exact ⟨h1, chainFits_mono _ _ _ (by omega) (ih _ h2)⟩

theorem conservativeSelectSpec_strong (q : List Request) :
    ∀ avail : ℤ, strongChain avail (conservativeSelectSpec avail q) := by
  induction q with
  | nil => intro avail; trivial
  | cons r rest ih =>
    intro avail
    by_cases h : r.memory_requirement + 1 ≤ avail
    · rw [conservativeSelectSpec, if_pos h]
      exact ⟨h, ih _⟩
    · rw [conservativeSelectSpec, if_neg h]
      exact ih _

theorem conservativeSelectSpec_subset (q : List Request) :
    ∀ avail : ℤ, ∀ r ∈ conservativeSelectSpec avail q, r ∈ q := by
  induction q with
  | nil => intro avail r hr; rw [conservativeSelectSpec] at hr; cases hr
  | cons x rest ih =>
    intro avail r hr
    by_cases h : x.memory_requirement + 1 ≤ avail
    · rw [conservativeSelectSpec, if_pos h] at hr
      rcases List.mem_cons.mp hr with h1 | h1
      · simp [h1]
      · exact List.mem_cons_of_mem _ (ih _ _ h1)
    · rw [conservativeSelectSpec, if_neg h] at hr
      exact List.mem_cons_of_mem _ (ih _ _ hr)

theorem conservativeActualLoop_waiting_spec (t : ℚ) (l : List Request) :
    ∀ s : SystemState, chainFits s.available_memory l →
      conservativeActualLoop false t l s =
        .ok { s with
                waiting := l.foldl (fun acc r => acc.erase r) s.waiting,
                running := s.running ++ l.map (fun r => admitStamp r t),
                total_admitted := s.total_admitted + l.length } := by
  induction l with
  | nil => intro s _; simp [conservativeActualLoop]
  | cons r rest ih =>
    intro s hfit
    obtain ⟨h1, h2⟩ := hfit
    have hadm : r.memory_requirement ≤
        SystemState.available_memory { s with waiting := s.waiting.erase r } := by
      simp [SystemState.available_memory, SystemState.gpu_memory_used] at h1 ⊢
      omega
    rw [conservativeActualLoop]
    simp only [Bool.false_eq_true, if_neg (by simp : ¬ (false : Bool) = true)]
    simp only [admitToBatch_ok _ _ _ hadm]
    have havail : SystemState.available_memory
        { s with waiting := s.waiting.erase r,
                 running := s.running ++ [admitStamp r t],
                 total_admitted := s.total_admitted + 1 } =
        s.available_memory - r.memory_requirement := by
      simp [SystemState.available_memory, SystemState.gpu_memory_used, admitStamp_memory]
      ring
    rw [ih _ (by rw [havail]; exact h2)]
    simp
    omega

theorem conservativeActualLoop_swapped_spec (t : ℚ) (l : List Request) :
    ∀ s : SystemState, chainFits s.available_memory l →
      conservativeActualLoop true t l s =
        .ok { s with
                swapped := l.foldl (fun acc r => acc.erase r) s.swapped,
                running := s.running ++ l.map (fun r => stampSwapIn (admitStamp r t) t),
                total_admitted := s.total_admitted + l.length,
                total_swapped_in := s.total_swapped_in + l.length } := by
  induction l with
  | nil => intro s _; simp [conservativeActualLoop]
  | cons r rest ih =>
    intro s hfit
    obtain ⟨h1, h2⟩ := hfit
    have hadm : r.memory_requirement ≤
        SystemState.available_memory { s with swapped := s.swapped.erase r } := by
      simp [SystemState.available_memory, SystemState.gpu_memory_used] at h1 ⊢
      omega
    rw [conservativeActualLoop]
    simp only [if_pos rfl]
    simp only [admitToBatch_ok _ _ _ hadm]
    have hdrop : ∀ lx : List Request, ∀ x : Request, (lx ++ [x]).dropLast = lx := by
      intro lx x
      simp
    simp only [hdrop]
    have havail : SystemState.available_memory
        { s with swapped := s.swapped.erase r,
                 running := s.running ++ [stampSwapIn (admitStamp r t) t],
                 total_admitted := s.total_admitted + 1,
                 total_swapped_in := s.total_swapped_in + 1 } =
        s.available_memory - r.memory_requirement := by
      simp [SystemState.available_memory, SystemState.gpu_memory_used,
        (swapInTransform_memory r t).1]
      ring
    rw [ih _ (by rw [havail]; exact h2)]
    simp
    omega

theorem tryAdmitWithoutPreemption_waiting_spec (q : List Request) (s : SystemState)
    (t : ℚ) :
    tryAdmitWithoutPreemption false q s t =
      .ok { s with
              waiting := (conservativeSelectSpec s.available_memory q).foldl
                (fun acc r => acc.erase r) s.waiting,
              running := s.running ++
                (conservativeSelectSpec s.available_memory q).map
                  (fun r => admitStamp r t),
              total_admitted := s.total_admitted +
                (conservativeSelectSpec s.available_memory q).length } := by
  rw [tryAdmitWithoutPreemption, tryAdmitSelectLoop_spec]
  simp only [restoreMTotal_spec, sub_add_cancel]
  exact conservativeActualLoop_waiting_spec t _ s
    (strongChain_fits _ _ (conservativeSelectSpec_strong _ _))

theorem tryAdmitWithoutPreemption_swapped_spec (q : List Request) (s : SystemState)
    (t : ℚ) :
    tryAdmitWithoutPreemption true q s t =
      .ok { s with
              swapped := (conservativeSelectSpec s.available_memory q).foldl
                (fun acc r => acc.erase r) s.swapped,
              running := s.running ++
                (conservativeSelectSpec s.available_memory q).map
                  (fun r => stampSwapIn (admitStamp r t) t),
              total_admitted := s.total_admitted +
                (conservativeSelectSpec s.available_memory q).length,
              total_swapped_in := s.total_swapped_in +
                (conservativeSelectSpec s.available_memory q).length } := by
  rw [tryAdmitWithoutPreemption, tryAdmitSelectLoop_spec]
  simp only [restoreMTotal_spec, sub_add_cancel]
  exact conservativeActualLoop_swapped_spec t _ s
    (strongChain_fits _ _ (conservativeSelectSpec_strong _ _))

theorem stampSwapIn_fields (r : Request) (t : ℚ) :
    (stampSwapIn r t).sacrifice_events = r.sacrifice_events ∧
    (stampSwapIn r t).swap_events.length = r.swap_events.length := by
  unfold stampSwapIn
  match he : r.swap_events.getLast? with
  | none => simp
  | some ev =>
    have hne : r.swap_events ≠ [] := by
      intro h
      rw [h] at he
      simp at he
    have hpos : 0 < r.swap_events.length := List.length_pos.mpr hne
    simp [List.length_dropLast]
    omega

theorem foldl_erase_subset (l : List Request) :
    ∀ q : List Request, ∀ x ∈ l.foldl (fun acc r => acc.erase r) q, x ∈ q := by
  induction l with
  | nil => intro q x hx; simpa using hx
  | cons r rest ih =>
    intro q x hx
    simp only [List.foldl_cons] at hx
    exact List.mem_of_mem_erase (ih _ x hx)

/-- Closed form of the conservative scheduling cycle
(_admission_control_conservative): swapped pass (swap mode only) then
waiting pass, each a skip-walk selection with reservations. -/
theorem admissionControlConservative_spec (mode : PreemptionMode) (s : SystemState)
    (t : ℚ) :
    admissionControlConservative mode s t =
      (let selS := if mode = PreemptionMode.swap then
          conservativeSelectSpec s.available_memory s.swapped else []
       let availW := s.available_memory - (selS.map Request.memory_requirement).sum
       let selW := conservativeSelectSpec availW s.waiting
       .ok { s with
               swapped := selS.foldl (fun acc r => acc.erase r) s.swapped,
               waiting := selW.foldl (fun acc r => acc.erase r) s.waiting,
               running := s.running ++
                 selS.map (fun r => stampSwapIn (admitStamp r t) t) ++
                 selW.map (fun r => admitStamp r t),
               total_admitted := s.total_admitted + selS.length + selW.length,
               total_swapped_in := s.total_swapped_in + selS.length }) := by
  have husage : ∀ l : List Request,
      ((l.map (fun r => stampSwapIn (admitStamp r t) t)).map
        Request.current_memory_usage).sum = (l.map Request.memory_requirement).sum := by
    intro l
    rw [List.map_map]
    congr 1
    exact List.map_congr_left (fun r _ => (swapInTransform_memory r t).1)
  by_cases hmode : mode = PreemptionMode.swap ∧ s.swapped ≠ []
  · obtain ⟨hm, hsw⟩ := hmode
    subst hm
    rw [admissionControlConservative,
      if_pos (show PreemptionMode.swap = PreemptionMode.swap ∧ s.swapped ≠ [] from
        ⟨rfl, hsw⟩)]
    rw [tryAdmitWithoutPreemption_swapped_spec]
    simp only [bind, Except.bind]
    rw [tryAdmitWithoutPreemption_waiting_spec]
    have havail : SystemState.available_memory
        { s with
            swapped := (conservativeSelectSpec s.available_memory s.swapped).foldl
              (fun acc r => acc.erase r) s.swapped,
            running := s.running ++
              (conservativeSelectSpec s.available_memory s.swapped).map
                (fun r => stampSwapIn (admitStamp r t) t),
            total_admitted := s.total_admitted +
              (conservativeSelectSpec s.available_memory s.swapped).length,
            total_swapped_in := s.total_swapped_in +
              (conservativeSelectSpec s.available_memory s.swapped).length } =
        s.available_memory -
          ((conservativeSelectSpec s.available_memory s.swapped).map
            Request.memory_requirement).sum := by
      simp only [SystemState.available_memory, SystemState.gpu_memory_used,
        List.map_append, List.sum_append, husage]
      ring
    simp only [havail, if_pos rfl, Except.ok.injEq]
    simp
  · rw [admissionControlConservative, if_neg hmode]
    have hselS : (if mode = PreemptionMode.swap then
        conservativeSelectSpec s.available_memory s.swapped else []) = [] := by
      by_cases hm : mode = PreemptionMode.swap
      · have hsw : s.swapped = [] := by
          by_contra hne
          exact hmode ⟨hm, hne⟩
        simp [hm, hsw, conservativeSelectSpec]
      · simp [hm]
    simp only [bind, Except.bind]
    rw [tryAdmitWithoutPreemption_waiting_spec]
    simp only [hselS]
    simp

/-- Claim C7: the conservative scheduling cycle removes no request from
RUNNING (the old running list is preserved as a prefix and only admitted
requests are appended), appends no sacrifice event and no swap-out event
to any request (sacrifice_events are equal and swap_events lengths are
equal across the cycle; the sacrifice and swap-out counters are
unchanged), and admits, from SWAPPED (in swap mode) then WAITING, exactly
the requests of conservativeSelectSpec: those whose memory_requirement +
1 fits within the available memory remaining after the reservations of
earlier admissions of the same pass, skipping non-fitting requests rather
than stopping. -/
theorem conservative_cycle_spec (mode : PreemptionMode) (s : SystemState) (t : ℚ) :
    let selS := if mode = PreemptionMode.swap then
      conservativeSelectSpec s.available_memory s.swapped else []
    let availW := s.available_memory - (selS.map Request.memory_requirement).sum
    let selW := conservativeSelectSpec availW s.waiting
    ∃ s', admissionControlConservative mode s t = .ok s' ∧
      s'.running = s.running ++
        selS.map (fun r => stampSwapIn (admitStamp r t) t) ++
        selW.map (fun r => admitStamp r t) ∧
      s'.completed_requests = s.completed_requests ∧
      s'.total_sacrifices = s.total_sacrifices ∧
      s'.batch_sacrifices = s.batch_sacrifices ∧
      s'.total_swapped_out = s.total_swapped_out ∧
      (∀ r' ∈ s'.running ++ s'.waiting ++ s'.swapped, ∃ r,
        (r ∈ s.running ++ s.waiting ++ s.swapped) ∧ r'.req_id = r.req_id ∧
        r'.sacrifice_events = r.sacrifice_events ∧
        r'.swap_events.length = r.swap_events.length) := by
  intro selS availW selW
  refine ⟨_, admissionControlConservative_spec mode s t, rfl, rfl, rfl, rfl, rfl, ?_⟩
  intro r' hr'
  simp only [List.mem_append] at hr'
  rcases hr' with (((hold | hs2) | hw) | hwait) | hswap
  · exact ⟨r', by simp [hold], rfl, rfl, rfl⟩
  · obtain ⟨r0, hr0, hr0t⟩ := List.mem_map.mp hs2
    have hr0mem : r0 ∈ s.swapped := by
      by_cases hm : mode = PreemptionMode.swap
      · rw [if_pos hm] at hr0
        exact conservativeSelectSpec_subset _ _ _ hr0
      · rw [if_neg hm] at hr0
        cases hr0
    refine ⟨r0, by simp [hr0mem], ?_, ?_, ?_⟩
    · rw [← hr0t]
      exact (swapInTransform_memory r0 t).2
    · rw [← hr0t]
      exact (stampSwapIn_fields _ _).1.trans (by simp [admitStamp])
    · rw [← hr0t]
      exact (stampSwapIn_fields _ _).2.trans (by simp [admitStamp])
  · obtain ⟨r0, hr0, hr0t⟩ := List.mem_map.mp hw
    have hr0mem : r0 ∈ s.waiting := conservativeSelectSpec_subset _ _ _ hr0
    exact ⟨r0, by simp [hr0mem], by rw [← hr0t]; simp [admitStamp],
      by rw [← hr0t]; simp [admitStamp], by rw [← hr0t]; simp [admitStamp]⟩
  · have : r' ∈ s.waiting := foldl_erase_subset _ _ _ hwait
    exact ⟨r', by simp [this], rfl, rfl, rfl⟩
  · have : r' ∈ s.swapped := foldl_erase_subset _ _ _ hswap
    exact ⟨r', by simp [this], rfl, rfl, rfl⟩

/-- Claim C10: the conservative cycle restores M_total in full: after the
call returns, state.M_total equals its value before the call (the
selection pass temporarily decrements it per reservation and the restore
pass adds every reservation back before the actual admissions). -/
theorem conservative_preserves_M_total (mode : PreemptionMode) (s : SystemState)
    (t : ℚ) (s' : SystemState)
    (h : admissionControlConservative mode s t = .ok s') :
    s'.M_total = s.M_total := by
  rw [admissionControlConservative_spec] at h
  simp only [Except.ok.injEq] at h
  rw [← h]

/-- A concrete conservative run for the C10 witness. -/
def cReq : Request :=
  { req_id := 7, arrival_time := 0, prefill_length := 2, decode_length := 3 }

def cState : SystemState :=
  { M_total := 5, B := 7, waiting := [cReq] }

/-- Witness for C10: the concrete conservative cycle admits cReq and
leaves M_total at 5. -/
theorem conservative_preserves_M_total_witness :
    ({ M_total := 5, B := 7, waiting := [],
       running := [{ cReq with status := .running, enter_running_times := [0] }],
       total_admitted := 1 } : SystemState).M_total = cState.M_total :=
  conservative_preserves_M_total .sacrifice cState 0 _ (by rfl)

theorem cycle_ok_batch_sacrifices (mode : PreemptionMode) (strat : PreemptionStrategy)
    (s : SystemState) (t : ℚ) (s' : SystemState)
    (h : performSchedulingCycle mode strat s t = .ok s') :
    s'.batch_sacrifices = s.batch_sacrifices ∧
    s'.total_sacrifices = s.total_sacrifices := by
  cases strat with
  | conservative =>
    rw [performSchedulingCycle, admissionControlConservative_spec] at h
    simp only [Except.ok.injEq] at h
    rw [← h]
    exact ⟨rfl, rfl⟩
  | aggressive =>
    rw [performSchedulingCycle] at h
    rw [scheduleWaitingNoPreemption_spec] at h
    simp only [bind, Except.bind] at h
    set s1 : SystemState :=
      (let specS := if mode = PreemptionMode.swap then
          specStopAdmit s.available_memory s.swapped else []
       let availW := s.available_memory - (specS.map Request.memory_requirement).sum
       let specW := specStopAdmit availW s.waiting
       { s with
           running := s.running ++
             specS.map (fun r => stampSwapIn (admitStamp r t) t) ++
             specW.map (fun r => admitStamp r t),
           swapped := specS.foldl (fun l r => l.erase r) s.swapped,
           waiting := specW.foldl (fun l r => l.erase r) s.waiting,
           total_admitted := s.total_admitted + specS.length + specW.length,
           total_swapped_in := s.total_swapped_in + specS.length }) with hs1
    have hs1b : s1.batch_sacrifices = s.batch_sacrifices := by rw [hs1]
    have hs1t : s1.total_sacrifices = s.total_sacrifices := by rw [hs1]
    rw [handleRunningMemoryPressure] at h
    by_cases hp : s1.gpu_memory_used + (s1.running.length : ℤ) ≤ s1.M_total
    · rw [if_pos hp] at h
      simp only [if_neg (by simp : ¬ ([] : List Request) ≠ []), Except.ok.injEq] at h
      rw [← h]
      exact ⟨hs1b, hs1t⟩
    · rw [if_neg hp] at h
      cases mode with
      | sacrifice =>
        cases hr : s1.running with
        | nil =>
          rw [hr, phase2Loop_nil] at h
          simp only [if_neg (by simp : ¬ ([] : List Request) ≠ []), Except.ok.injEq] at h
          rw [← h]
          exact ⟨hs1b, hs1t⟩
        | cons r rs =>
          exfalso
          have hneed : ¬ s1.gpu_memory_used + (((r :: rs) : List Request).length : ℤ) -
              s1.M_total ≤ 0 := by
            rw [← hr]; omega
          rw [hr] at h
          rw [phase2Loop_sacrifice_raises _ _ _ _ _ _ hneed] at h
          cases h
      | swap =>
        obtain ⟨s2, heq, _, _, _, _, _, _, _, _, _, _, hts, hbs⟩ :=
          phase2Loop_swap_spec t s1.running.length s1.running
            (s1.gpu_memory_used + (s1.running.length : ℤ) - s1.M_total) s1 [] rfl
        rw [heq] at h
        simp only [if_neg (by simp : ¬ ([] : List Request) ≠ []), Except.ok.injEq] at h
        rw [← h]
        exact ⟨hbs.trans hs1b, hts.trans hs1t⟩

/-- Any successful scheduling cycle leaves M_total and B unchanged. -/
theorem cycle_ok_MB (mode : PreemptionMode) (strat : PreemptionStrategy)
    (s : SystemState) (t : ℚ) (s' : SystemState)
    (h : performSchedulingCycle mode strat s t = .ok s') :
    s'.M_total = s.M_total ∧ s'.B = s.B := by
  cases strat with
  | conservative =>
    rw [performSchedulingCycle, admissionControlConservative_spec] at h
    simp only [Except.ok.injEq] at h
    rw [← h]
    exact ⟨rfl, rfl⟩
  | aggressive =>
    rw [performSchedulingCycle] at h
    rw [scheduleWaitingNoPreemption_spec] at h
    simp only [bind, Except.bind] at h
    set s1 : SystemState :=
      (let specS := if mode = PreemptionMode.swap then
          specStopAdmit s.available_memory s.swapped else []
       let availW := s.available_memory - (specS.map Request.memory_requirement).sum
       let specW := specStopAdmit availW s.waiting
       { s with
           running := s.running ++
             specS.map (fun r => stampSwapIn (admitStamp r t) t) ++
             specW.map (fun r => admitStamp r t),
           swapped := specS.foldl (fun l r => l.erase r) s.swapped,
           waiting := specW.foldl (fun l r => l.erase r) s.waiting,
           total_admitted := s.total_admitted + specS.length + specW.length,
           total_swapped_in := s.total_swapped_in + specS.length }) with hs1
    have hs1M : s1.M_total = s.M_total := by rw [hs1]
    have hs1B : s1.B = s.B := by rw [hs1]
    rw [handleRunningMemoryPressure] at h
    by_cases hp : s1.gpu_memory_used + (s1.running.length : ℤ) ≤ s1.M_total
    · rw [if_pos hp] at h
      simp only [if_neg (by simp : ¬ ([] : List Request) ≠ []), Except.ok.injEq] at h
      rw [← h]
      exact ⟨hs1M, hs1B⟩
    · rw [if_neg hp] at h
      cases mode with
      | sacrifice =>
        cases hr : s1.running with
        | nil =>
          rw [hr, phase2Loop_nil] at h
          simp only [if_neg (by simp : ¬ ([] : List Request) ≠ []), Except.ok.injEq] at h
          rw [← h]
          exact ⟨hs1M, hs1B⟩
        | cons r rs =>
          exfalso
          have hneed : ¬ s1.gpu_memory_used + (((r :: rs) : List Request).length : ℤ) -
              s1.M_total ≤ 0 := by
            rw [← hr]; omega
          rw [hr] at h
          rw [phase2Loop_sacrifice_raises _ _ _ _ _ _ hneed] at h
          cases h
      | swap =>
        obtain ⟨s2, heq, _, _, _, hM, hB, _, _, _, _, _, _, _⟩ :=
          phase2Loop_swap_spec t s1.running.length s1.running
            (s1.gpu_memory_used + (s1.running.length : ℤ) - s1.M_total) s1 [] rfl
        rw [heq] at h
        simp only [if_neg (by simp : ¬ ([] : List Request) ≠ []), Except.ok.injEq] at h
        rw [← h]
        exact ⟨hM.trans hs1M, hB.trans hs1B⟩

/-- complete_request touches the running list, the completed list and
total_completed only. -/
theorem completeRequest_fields (s : SystemState) (r : Request) (t : ℚ) :
    (completeRequest s r t).batch_sacrifices = s.batch_sacrifices ∧
    (completeRequest s r t).M_total = s.M_total ∧
    (completeRequest s r t).B = s.B := by
  unfold completeRequest SystemState.removeFromBatch
  by_cases h : r ∈ s.running <;> simp [h]

theorem foldl_completeRequest_fields (t : ℚ) (l : List Request) :
    ∀ s : SystemState,
      ((l.foldl (fun s r => completeRequest s r t) s).batch_sacrifices =
        s.batch_sacrifices) ∧
      ((l.foldl (fun s r => completeRequest s r t) s).M_total = s.M_total) ∧
      ((l.foldl (fun s r => completeRequest s r t) s).B = s.B) := by
  induction l with
  | nil => intro s; exact ⟨rfl, rfl, rfl⟩
  | cons r rest ih =>
    intro s
    simp only [List.foldl_cons]
    obtain ⟨h1, h2, h3⟩ := ih (completeRequest s r t)
    obtain ⟨g1, g2, g3⟩ := completeRequest_fields s r t
    exact ⟨h1.trans g1, h2.trans g2, h3.trans g3⟩

/-- extract_completed_requests never touches batch_sacrifices, M_total or
B. -/
theorem extractCompleted_fields (s : SystemState) (t : ℚ) :
    (extractCompleted s t).batch_sacrifices = s.batch_sacrifices ∧
    (extractCompleted s t).M_total = s.M_total ∧
    (extractCompleted s t).B = s.B :=
  foldl_completeRequest_fields t _ s

/-- The state handed to the end-of-step cycle: batch_sacrifices is zero
exactly when the step resets it after the snapshot, and M_total and B are
those of the entry state. -/
theorem stepPostExtract_fields (reset : Bool) (cfg : SimConfig) (st1 : SimState) :
    (stepPostExtract reset cfg st1).batch_sacrifices =
      (if reset then 0 else st1.state.batch_sacrifices) ∧
    (stepPostExtract reset cfg st1).M_total = st1.state.M_total ∧
    (stepPostExtract reset cfg st1).B = st1.state.B := by
  cases reset
  · exact extractCompleted_fields _ _
  · exact extractCompleted_fields _ _

/-- A simulator step that returns False changes nothing: it is the state
before any batch work, and RUNNING is empty there. -/
theorem stepBody_false_spec (reset : Bool) (cfg : SimConfig) (st1 st' : SimState)
    (h : stepBody reset cfg st1 = .ok (st', false)) :
    st' = st1 ∧ st1.state.running = [] := by
  rw [stepBody] at h
  by_cases hr : st1.state.running = []
  · rw [if_pos hr] at h
    simp only [Except.ok.injEq, Prod.mk.injEq] at h
    exact ⟨h.1.symm, hr⟩
  · rw [if_neg hr] at h
    cases hc : performSchedulingCycle cfg.mode cfg.strategy
        (stepPostExtract reset cfg st1) (stepTime cfg st1) with
    | error e => rw [hc] at h; cases h
    | ok s6 => rw [hc] at h; simp at h

/-- A step of either simulator that returns False leaves RUNNING empty and
the arrival trace untouched. -/
theorem stepSim_false_spec (reset : Bool) (cfg : SimConfig) (st st' : SimState)
    (h : stepSim reset cfg st = .ok (st', false)) :
    st'.state.running = [] ∧ st'.pending = st.pending := by
  rw [stepSim] at h
  by_cases h0 : st.state.running = [] ∧ st.state.waiting = [] ∧ st.state.swapped = []
  · rw [if_pos h0] at h
    simp only [Except.ok.injEq, Prod.mk.injEq] at h
    rw [← h.1]
    exact ⟨h0.1, rfl⟩
  · rw [if_neg h0] at h
    by_cases h1 : st.state.running = []
    · rw [if_pos h1] at h
      cases hc : performSchedulingCycle cfg.mode cfg.strategy st.state st.time with
      | error e => rw [hc] at h; cases h
      | ok s1 =>
        rw [hc] at h
        have h2 : stepBody reset cfg { st with state := s1 } = .ok (st', false) := h
        obtain ⟨hst', hrun1⟩ := stepBody_false_spec reset cfg _ _ h2
        rw [hst']
        exact ⟨hrun1, rfl⟩
    · rw [if_neg h1] at h
      have h2 : stepBody reset cfg { st with state := st.state } = .ok (st', false) := h
      obtain ⟨hst', hrun1⟩ := stepBody_false_spec reset cfg _ _ h2
      rw [hst']
      exact ⟨hrun1, rfl⟩

/-- A step that proceeds (returns True) appends exactly one snapshot, the
one of the state right after batch selection, and leaves batch_sacrifices
zeroed exactly when the step variant resets it. -/
theorem stepBody_true_spec (reset : Bool) (cfg : SimConfig) (st1 st' : SimState)
    (h : stepBody reset cfg st1 = .ok (st', true)) :
    st1.state.running ≠ [] ∧
    st'.snapshots = st1.snapshots ++ [stepSnap cfg st1] ∧
    st'.state.batch_sacrifices = (if reset then 0 else st1.state.batch_sacrifices) ∧
    st'.pending = st1.pending := by
  rw [stepBody] at h
  by_cases hr : st1.state.running = []
  · rw [if_pos hr] at h
    simp at h
  · rw [if_neg hr] at h
    cases hc : performSchedulingCycle cfg.mode cfg.strategy
        (stepPostExtract reset cfg st1) (stepTime cfg st1) with
    | error e => rw [hc] at h; cases h
    | ok s6 =>
      rw [hc] at h
      have hst : ({ state := s6, time := stepTime cfg st1, batch_id := st1.batch_id + 1,
                    snapshots := st1.snapshots ++ [stepSnap cfg st1],
                    pending := st1.pending } : SimState) = st' := by
        have h2 := h
        simp only [Except.ok.injEq, Prod.mk.injEq] at h2
        exact h2.1
      refine ⟨hr, ?_, ?_, ?_⟩
      · rw [← hst]
      · rw [← hst]
        show s6.batch_sacrifices = _
        rw [(cycle_ok_batch_sacrifices _ _ _ _ _ hc).1]
        exact (stepPostExtract_fields reset cfg st1).1
      · rw [← hst]

/-- A step of either simulator that returns True ran its batch from a
state st1 (the entry state, after the entry scheduling cycle when RUNNING
was empty) with non-empty RUNNING, the same snapshots, trace, B and
batch_sacrifices as the entry state; it appends exactly the snapshot of
st1 and zeroes batch_sacrifices exactly when the variant resets it. -/
theorem stepSim_true_spec (reset : Bool) (cfg : SimConfig) (st st' : SimState)
    (h : stepSim reset cfg st = .ok (st', true)) :
    ∃ st1 : SimState,
      st1.time = st.time ∧ st1.batch_id = st.batch_id ∧
      st1.snapshots = st.snapshots ∧ st1.pending = st.pending ∧
      st1.state.B = st.state.B ∧
      st1.state.batch_sacrifices = st.state.batch_sacrifices ∧
      st1.state.running ≠ [] ∧
      st'.snapshots = st.snapshots ++ [stepSnap cfg st1] ∧
      st'.state.batch_sacrifices = (if reset then 0 else st.state.batch_sacrifices) := by
  rw [stepSim] at h
  by_cases h0 : st.state.running = [] ∧ st.state.waiting = [] ∧ st.state.swapped = []
  · rw [if_pos h0] at h
    simp at h
  · rw [if_neg h0] at h
    by_cases h1 : st.state.running = []
    · rw [if_pos h1] at h
      cases hc : performSchedulingCycle cfg.mode cfg.strategy st.state st.time with
      | error e => rw [hc] at h; cases h
      | ok s1 =>
        rw [hc] at h
        have h2 : stepBody reset cfg { st with state := s1 } = .ok (st', true) := h
        obtain ⟨hrun, hsnap, hbs, -⟩ := stepBody_true_spec reset cfg _ _ h2
        have hs1bs : s1.batch_sacrifices = st.state.batch_sacrifices :=
          (cycle_ok_batch_sacrifices _ _ _ _ _ hc).1
        refine ⟨{ st with state := s1 }, rfl, rfl, rfl, rfl,
          (cycle_ok_MB _ _ _ _ _ hc).2, hs1bs, hrun, hsnap, ?_⟩
        rw [hbs]
        show (if reset then 0 else s1.batch_sacrifices) = _
        rw [hs1bs]
    · rw [if_neg h1] at h
      have h2 : stepBody reset cfg { st with state := st.state } = .ok (st', true) := h
      obtain ⟨hrun, hsnap, hbs, -⟩ := stepBody_true_spec reset cfg _ _ h2
      exact ⟨{ st with state := st.state }, rfl, rfl, rfl, rfl, rfl, rfl,
        hrun, hsnap, hbs⟩

/-- With no budget left, the Phase-1 stop-walk admits nothing (the head
request's memory_requirement + 1 already exceeds the available memory). -/
theorem specStopAdmit_nonpos (avail : ℤ) (q : List Request) (h : avail ≤ 0)
    (hq : ∀ r ∈ q, 0 ≤ r.memory_requirement) : specStopAdmit avail q = [] := by
  cases q with
  | nil => rfl
  | cons r rest =>
    have h1 := hq r (by simp)
    rw [specStopAdmit, if_neg (by omega)]

/-- With no budget left, the conservative skip-walk admits nothing. -/
theorem conservativeSelectSpec_nonpos (avail : ℤ) (q : List Request) (h : avail ≤ 0)
    (hq : ∀ r ∈ q, 0 ≤ r.memory_requirement) : conservativeSelectSpec avail q = [] := by
  induction q with
  | nil => rfl
  | cons r rest ih =>
    have h1 := hq r (by simp)
    rw [conservativeSelectSpec, if_neg (by omega)]
    exact ih (fun r hr => hq r (by simp [hr]))

/-- With M_total = 0, empty RUNNING and SWAPPED queues and nonnegative
memory requirements in WAITING, a scheduling cycle is a no-op for either
strategy and mode. -/
theorem cycle_M0_fixed (mode : PreemptionMode) (strat : PreemptionStrategy)
    (s : SystemState) (t : ℚ) (hM : s.M_total = 0) (hrun : s.running = [])
    (hsw : s.swapped = []) (hwait : ∀ r ∈ s.waiting, 0 ≤ r.memory_requirement) :
    performSchedulingCycle mode strat s t = .ok s := by
  have hgpu : s.gpu_memory_used = 0 := by
    simp [SystemState.gpu_memory_used, hrun]
  have havail : s.available_memory ≤ 0 := by
    simp [SystemState.available_memory, hgpu, hM]
  cases strat with
  | conservative =>
    have hselS : (if mode = PreemptionMode.swap then
        conservativeSelectSpec s.available_memory s.swapped else []) = [] := by
      cases mode <;> simp [hsw, conservativeSelectSpec]
    have hselW : conservativeSelectSpec s.available_memory s.waiting = [] :=
      conservativeSelectSpec_nonpos _ _ havail hwait
    rw [performSchedulingCycle, admissionControlConservative_spec]
    simp [hselS, hselW]
  | aggressive =>
    have hspecS : (if mode = PreemptionMode.swap then
        specStopAdmit s.available_memory s.swapped else []) = [] := by
      cases mode <;> simp [hsw, specStopAdmit]
    have hspecW : specStopAdmit s.available_memory s.waiting = [] :=
      specStopAdmit_nonpos _ _ havail hwait
    rw [performSchedulingCycle, scheduleWaitingNoPreemption_spec]
    simp only [bind, Except.bind]
    simp only [hspecS]
    have hcond : s.gpu_memory_used + (s.running.length : ℤ) ≤ s.M_total := by
      rw [hgpu, hrun, hM]
      simp
    simp [hspecW, handleRunningMemoryPressure, hcond]

/-- With M_total = 0 and nothing running or swapped, a step of either
simulator does nothing and reports the stall (returns False). -/
theorem stepSim_M0 (reset : Bool) (cfg : SimConfig) (st : SimState)
    (hM : st.state.M_total = 0) (hrun : st.state.running = [])
    (hsw : st.state.swapped = [])
    (hwait : ∀ r ∈ st.state.waiting, 0 ≤ r.memory_requirement) :
    stepSim reset cfg st = .ok (st, false) := by
  rw [stepSim]
  by_cases h0 : st.state.running = [] ∧ st.state.waiting = [] ∧ st.state.swapped = []
  · rw [if_pos h0]
  · rw [if_neg h0, if_pos hrun,
      cycle_M0_fixed cfg.mode cfg.strategy st.state st.time hM hrun hsw hwait]
    show stepBody reset cfg { st with state := st.state } = .ok (st, false)
    have he : ({ st with state := st.state } : SimState) = st := rfl
    rw [he, stepBody, if_pos hrun]

/-- The arrival pump moves the arrived prefix of the trace into the
waiting queue, each request stamped WAITING, and keeps the rest pending. -/
theorem arrivalPumpAux_spec (t : ℚ) :
    ∀ (l : List Request) (s : SystemState),
      ∃ k, arrivalPumpAux t l s =
        ({ s with waiting := s.waiting ++
             (l.take k).map (fun r => { r with status := RequestStatus.waiting }) },
         l.drop k) := by
  intro l
  induction l with
  | nil =>
    intro s
    exact ⟨0, by simp [arrivalPumpAux]⟩
  | cons r rest ih =>
    intro s
    by_cases h : r.arrival_time ≤ t
    · obtain ⟨k, hk⟩ :=
        ih { s with waiting := s.waiting ++ [{ r with status := RequestStatus.waiting }] }
      refine ⟨k + 1, ?_⟩
      rw [arrivalPumpAux, if_pos h, hk]
      simp
    · refine ⟨0, ?_⟩
      rw [arrivalPumpAux, if_neg h]
      simp

/-- What the arrival pump preserves, and where waiting and pending entries
come from afterwards. -/
theorem arrivalPump_inv (st : SimState) :
    (arrivalPump st).time = st.time ∧
    (arrivalPump st).batch_id = st.batch_id ∧
    (arrivalPump st).snapshots = st.snapshots ∧
    (arrivalPump st).state.M_total = st.state.M_total ∧
    (arrivalPump st).state.B = st.state.B ∧
    (arrivalPump st).state.running = st.state.running ∧
    (arrivalPump st).state.swapped = st.state.swapped ∧
    (arrivalPump st).state.total_admitted = st.state.total_admitted ∧
    (∀ r ∈ (arrivalPump st).state.waiting,
       r ∈ st.state.waiting ∨
       ∃ r0 ∈ st.pending, r.memory_requirement = r0.memory_requirement) ∧
    (∀ r ∈ (arrivalPump st).pending, r ∈ st.pending) := by
  obtain ⟨k, hk⟩ := arrivalPumpAux_spec st.time st.pending st.state
  simp only [arrivalPump, hk]
  refine ⟨trivial, trivial, trivial, trivial, trivial, trivial, trivial, trivial, ?_, ?_⟩
  · intro r hr
    simp only [List.mem_append] at hr
    rcases hr with hmem | hmem
    · exact Or.inl hmem
    · obtain ⟨r0, hr0, hr0t⟩ := List.mem_map.mp hmem
      refine Or.inr ⟨r0, List.mem_of_mem_take hr0, ?_⟩
      rw [← hr0t]
      simp [Request.memory_requirement]
  · intro r hr
    exact List.mem_of_mem_drop hr

/-- Whenever the main loop exits by itself (rather than running out of
fuel), the final RUNNING list is empty: the all-empty exits have it empty
by definition and a step returning False leaves it empty. -/
theorem runLoop_exit_running (reset : Bool) (cfg : SimConfig) :
    ∀ (fuel : ℕ) (st stf : SimState),
      runLoop reset cfg fuel st = .ok (some stf) → stf.state.running = [] := by
  intro fuel
  induction fuel with
  | zero =>
    intro st stf h
    rw [runLoop] at h
    simp at h
  | succ n ih =>
    intro st stf h
    rw [runLoop] at h
    by_cases h0 : st.pending = [] ∧ st.state.running = [] ∧ st.state.waiting = []
        ∧ st.state.swapped = []
    · rw [if_pos h0] at h
      simp only [Except.ok.injEq, Option.some.injEq] at h
      rw [← h]
      exact h0.2.1
    · rw [if_neg h0] at h
      simp only at h
      by_cases h1 : (arrivalPump st).state.running = [] ∧
          (arrivalPump st).state.waiting = [] ∧ (arrivalPump st).state.swapped = []
      · rw [if_pos h1] at h
        cases hp : (arrivalPump st).pending with
        | cons r rest =>
          rw [hp] at h
          exact ih _ _ h
        | nil =>
          rw [hp] at h
          simp only [Except.ok.injEq, Option.some.injEq] at h
          rw [← h]
          exact h1.1
      · rw [if_neg h1] at h
        cases hs : stepSim reset cfg (arrivalPump st) with
        | error e => rw [hs] at h; cases h
        | ok p =>
          obtain ⟨st2, b⟩ := p
          rw [hs] at h
          cases b
          · simp only [Except.ok.injEq, Option.some.injEq] at h
            rw [← h]
            exact (stepSim_false_spec reset cfg _ _ hs).1
          · exact ih _ _ h

/-- With M_total = 0, an empty batch, an empty swap queue and nonnegative
memory requirements everywhere, the main loop never admits anything:
total_admitted is unchanged at every self-exit. -/
theorem runLoop_M0_admitted (reset : Bool) (cfg : SimConfig) :
    ∀ (fuel : ℕ) (st stf : SimState),
      st.state.M_total = 0 → st.state.running = [] → st.state.swapped = [] →
      (∀ r ∈ st.state.waiting, 0 ≤ r.memory_requirement) →
      (∀ r ∈ st.pending, 0 ≤ r.memory_requirement) →
      runLoop reset cfg fuel st = .ok (some stf) →
      stf.state.total_admitted = st.state.total_admitted := by
  intro fuel
  induction fuel with
  | zero =>
    intro st stf _ _ _ _ _ h
    rw [runLoop] at h
    simp at h
  | succ n ih =>
    intro st stf hM hrun hsw hwait hpend h
    rw [runLoop] at h
    by_cases h0 : st.pending = [] ∧ st.state.running = [] ∧ st.state.waiting = []
        ∧ st.state.swapped = []
    · rw [if_pos h0] at h
      simp only [Except.ok.injEq, Option.some.injEq] at h
      rw [← h]
    · rw [if_neg h0] at h
      simp only at h
      obtain ⟨-, -, -, hM', -, hrun', hsw', hadm', hwait', hpend'⟩ := arrivalPump_inv st
      have hM1 : (arrivalPump st).state.M_total = 0 := by rw [hM']; exact hM
      have hrun1 : (arrivalPump st).state.running = [] := by rw [hrun']; exact hrun
      have hsw1 : (arrivalPump st).state.swapped = [] := by rw [hsw']; exact hsw
      have hwait1 : ∀ r ∈ (arrivalPump st).state.waiting, 0 ≤ r.memory_requirement := by
        intro r hr
        rcases hwait' r hr with hmem | ⟨r0, hr0, heq⟩
        · exact hwait r hmem
        · rw [heq]
          exact hpend r0 hr0
      have hpend1 : ∀ r ∈ (arrivalPump st).pending, 0 ≤ r.memory_requirement :=
        fun r hr => hpend r (hpend' r hr)
      by_cases h1 : (arrivalPump st).state.running = [] ∧
          (arrivalPump st).state.waiting = [] ∧ (arrivalPump st).state.swapped = []
      · rw [if_pos h1] at h
        cases hp : (arrivalPump st).pending with
        | cons r rest =>
          rw [hp] at h
          simp only at h
          have hpend2 : ∀ r' ∈ (r :: rest : List Request), 0 ≤ r'.memory_requirement := by
            rw [← hp]
            exact hpend1
          exact (ih { state := (arrivalPump st).state, time := r.arrival_time,
                      batch_id := (arrivalPump st).batch_id,
                      snapshots := (arrivalPump st).snapshots,
                      pending := r :: rest } stf
                 hM1 hrun1 hsw1 hwait1 hpend2 h).trans hadm'
        | nil =>
          rw [hp] at h
          simp only [Except.ok.injEq, Option.some.injEq] at h
          rw [← h]
          exact hadm'
      · rw [if_neg h1] at h
        rw [stepSim_M0 reset cfg (arrivalPump st) hM1 hrun1 hsw1 hwait1] at h
        simp only [Except.ok.injEq, Option.some.injEq] at h
        rw [← h]
        exact hadm'

theorem greedySpecBatch_isPre (B : ℤ) (l : List Request) :
    ∃ rest, l = greedySpecBatch B l ++ rest := by
  cases l with
  | nil => exact ⟨[], rfl⟩
  | cons r tl =>
    by_cases h : B < reqTokens r
    · exact ⟨tl, by simp [greedySpecBatch, h]⟩
    · obtain ⟨rest, hrest⟩ := greedyFit_isPre (B - reqTokens r) tl
      refine ⟨rest, ?_⟩
      simp [greedySpecBatch, h]
      exact hrest

theorem greedySpecBatch_ne_nil (B : ℤ) (r : Request) (tl : List Request) :
    greedySpecBatch B (r :: tl) ≠ [] := by
  by_cases h : B < reqTokens r <;> simp [greedySpecBatch, h]

theorem greedySpecBatch_tokens_le (B : ℤ) (l : List Request) (hne : l ≠ [])
    (hlen : (greedySpecBatch B l).length ≠ 1) :
    batchTokens (greedySpecBatch B l) ≤ B := by
  cases l with
  | nil => cases hne rfl
  | cons r tl =>
    by_cases h : B < reqTokens r
    · exfalso
      apply hlen
      simp [greedySpecBatch, h]
    · by_cases hgf : greedyFit (B - reqTokens r) tl = []
      · exfalso
        apply hlen
        simp [greedySpecBatch, h, hgf]
      · have hle := greedyFit_sum_le (B - reqTokens r) tl hgf
        simp only [greedySpecBatch, if_neg h, batchTokens, List.map_cons,
          List.sum_cons] at hle ⊢
        omega

theorem batchTokens_nonneg (l : List Request)
    (h : ∀ r ∈ l, 0 ≤ r.memory_requirement) : 0 ≤ batchTokens l := by
  induction l with
  | nil => simp [batchTokens]
  | cons r tl ih =>
    have h0 := h r (by simp)
    have h1 := ih (fun r hr => h r (by simp [hr]))
    simp only [batchTokens, List.map_cons, List.sum_cons, reqTokens] at h1 ⊢
    omega

theorem batchTokens_pos (l : List Request) (hne : l ≠ [])
    (h : ∀ r ∈ l, 0 ≤ r.memory_requirement) : 0 < batchTokens l := by
  cases l with
  | nil => cases hne rfl
  | cons r tl =>
    have h0 := h r (by simp)
    have h1 := batchTokens_nonneg tl (fun r hr => h r (by simp [hr]))
    simp only [batchTokens, List.map_cons, List.sum_cons, reqTokens] at h1 ⊢
    omega

/-- Claim C1: select_execution_batch returns the greedy FCFS prefix of
RUNNING under the budget B together with its token total: requests are
taken in list order while the running total of (memory_requirement + 1)
stays within B, stopping at the first request that would exceed it,
except that a first request already exceeding B alone is taken by itself.
Consequently at every snapshot a proceeding step emits, if the executed
batch's requests have nonnegative memory requirements and the recorded
actual_batch_count is not 1, the recorded total_tokens_in_batch is the
batch's token total and is at most B. -/
theorem select_execution_batch_spec :
    (∀ (B : ℤ) (running : List Request),
       selectExecutionBatch B running =
         (greedySpecBatch B running, batchTokens (greedySpecBatch B running)) ∧
       (∃ rest, running = greedySpecBatch B running ++ rest) ∧
       (∀ r rest, running = r :: rest →
          (B < reqTokens r → greedySpecBatch B running = [r]) ∧
          (¬ B < reqTokens r →
             greedySpecBatch B running = r :: greedyFit (B - reqTokens r) rest)) ∧
       (running ≠ [] → (greedySpecBatch B running).length ≠ 1 →
          batchTokens (greedySpecBatch B running) ≤ B)) ∧
    (∀ (reset : Bool) (cfg : SimConfig) (st st' : SimState),
       stepSim reset cfg st = .ok (st', true) →
       ∃ st1 : SimState, st1.state.running ≠ [] ∧ st1.state.B = st.state.B ∧
         st'.snapshots = st.snapshots ++ [stepSnap cfg st1] ∧
         ((∀ r ∈ st1.state.running, 0 ≤ r.memory_requirement) →
            (stepSnap cfg st1).actual_batch_count ≠ 1 →
            (stepSnap cfg st1).total_tokens_in_batch =
              batchTokens (greedySpecBatch st1.state.B st1.state.running) ∧
            (stepSnap cfg st1).total_tokens_in_batch ≤ st.state.B)) := by
  constructor
  · intro B running
    refine ⟨selectExecutionBatch_eq B running, greedySpecBatch_isPre B running, ?_,
      greedySpecBatch_tokens_le B running⟩
    intro r rest hcons
    subst hcons
    constructor
    · intro h
      simp [greedySpecBatch, h]
    · intro h
      simp [greedySpecBatch, h]
  · intro reset cfg st st' h
    obtain ⟨st1, -, -, -, -, hB, -, hrun, hsnap, -⟩ := stepSim_true_spec reset cfg st st' h
    refine ⟨st1, hrun, hB, hsnap, ?_⟩
    intro hmem hcnt
    have hsel := selectExecutionBatch_eq st1.state.B st1.state.running
    have hgsbne : greedySpecBatch st1.state.B st1.state.running ≠ [] := by
      cases hrn : st1.state.running with
      | nil => cases hrun hrn
      | cons r tl => exact greedySpecBatch_ne_nil _ _ _
    obtain ⟨rest, hpre⟩ := greedySpecBatch_isPre st1.state.B st1.state.running
    have hmem2 : ∀ r ∈ greedySpecBatch st1.state.B st1.state.running,
        0 ≤ r.memory_requirement := by
      intro r hr
      refine hmem r ?_
      rw [hpre]
      exact List.mem_append_left _ hr
    have hpos : 0 < batchTokens (greedySpecBatch st1.state.B st1.state.running) :=
      batchTokens_pos _ hgsbne hmem2
    have habc : (stepSnapState st1).actual_batch_count =
        (greedySpecBatch st1.state.B st1.state.running).length := by
      show (selectExecutionBatch st1.state.B st1.state.running).1.length = _
      rw [hsel]
    have habt : (stepSnapState st1).actual_batch_tokens =
        batchTokens (greedySpecBatch st1.state.B st1.state.running) := by
      show (selectExecutionBatch st1.state.B st1.state.running).2 = _
      rw [hsel]
    have hcnt_eq : (stepSnap cfg st1).actual_batch_count =
        (greedySpecBatch st1.state.B st1.state.running).length := by
      show (if 0 < (stepSnapState st1).actual_batch_count
            then (stepSnapState st1).actual_batch_count
            else (stepSnapState st1).running.length) = _
      rw [habc, if_pos (List.length_pos.mpr hgsbne)]
    have htok : (stepSnap cfg st1).total_tokens_in_batch =
        batchTokens (greedySpecBatch st1.state.B st1.state.running) := by
      show (if 0 < (stepSnapState st1).actual_batch_tokens
            then (stepSnapState st1).actual_batch_tokens
            else (stepSnapState st1).gpu_memory_used) = _
      rw [habt, if_pos hpos]
    have hlen1 : (greedySpecBatch st1.state.B st1.state.running).length ≠ 1 := by
      intro hl
      exact hcnt (hcnt_eq.trans hl)
    have hle := greedySpecBatch_tokens_le st1.state.B st1.state.running
      (fun hrn => hrun hrn) hlen1
    rw [← hB]
    refine ⟨htok, ?_⟩
    rw [htok]
    exact hle

/-- Claim C5 (amended): a self-exit of the main loop always has RUNNING
empty, but not necessarily empty pending, waiting or swapped queues (the
loop also exits when a step stalls); and with M_total = 0, an initially
idle system and nonnegative memory requirements, no request is ever
admitted across the whole run. -/
theorem run_loop_exit_spec :
    (∀ (reset : Bool) (cfg : SimConfig) (fuel : ℕ) (st stf : SimState),
       runLoop reset cfg fuel st = .ok (some stf) → stf.state.running = []) ∧
    (∀ (reset : Bool) (cfg : SimConfig) (fuel : ℕ) (st stf : SimState),
       st.state.M_total = 0 → st.state.running = [] → st.state.swapped = [] →
       (∀ r ∈ st.state.waiting, 0 ≤ r.memory_requirement) →
       (∀ r ∈ st.pending, 0 ≤ r.memory_requirement) →
       runLoop reset cfg fuel st = .ok (some stf) →
       stf.state.total_admitted = st.state.total_admitted) :=
  ⟨fun reset cfg fuel st stf h => runLoop_exit_running reset cfg fuel st stf h,
   fun reset cfg fuel st stf hM hr hs hw hp h =>
     runLoop_M0_admitted reset cfg fuel st stf hM hr hs hw hp h⟩

/-- Requests of the C5 counterexample run. -/
def c5r0 : Request :=
  { req_id := 0, arrival_time := 0, prefill_length := 1, decode_length := 1 }

def c5r1 : Request :=
  { req_id := 1, arrival_time := 10, prefill_length := 1, decode_length := 1 }

def c5cfg : SimConfig :=
  { d_0 := 1, d_1 := 1, mode := .sacrifice, strategy := .conservative }

/-- The C5 run: M_total = 0, two arrivals at times 0 and 10. -/
def c5start : SimState :=
  { state := { M_total := 0, B := 1 }, time := 0, batch_id := 0, snapshots := [],
    pending := [c5r0, c5r1] }

/-- Where the C5 run stops: the first arrival is waiting, the second is
still pending, and the loop has exited. -/
def c5exit : SimState :=
  { state := { M_total := 0, B := 1,
               waiting := [{ c5r0 with status := RequestStatus.waiting }] },
    time := 0, batch_id := 0, snapshots := [],
    pending := [c5r1] }

/-- Counterexample to C5 as stated: the loop exits (the step after the
first arrival stalls because nothing fits into M_total = 0) while both the
waiting queue and the pending arrival list are still non-empty, so the
simulator does not drain the remaining arrival. -/
theorem run_loop_exit_counterexample :
    runLoop false c5cfg 1 c5start = .ok (some c5exit) ∧
    c5exit.state.waiting ≠ [] ∧ c5exit.pending ≠ [] := by
  refine ⟨rfl, ?_, ?_⟩
  · decide
  · decide

/-- Claim C6 (amended): only VLLMSimulatorWithState.step resets
batch_sacrifices to zero right after recording the snapshot; the snapshot
itself always records the pre-step counter.  VLLMSimulator.step performs
no reset, so its counter value carries over to the next snapshot
unchanged. -/
theorem step_snapshot_sacrifice_reset :
    (∀ (cfg : SimConfig) (st st' : SimState),
       stepSim true cfg st = .ok (st', true) →
       st'.state.batch_sacrifices = 0 ∧
       ∃ snap, st'.snapshots = st.snapshots ++ [snap] ∧
         snap.batch_sacrifice_count = st.state.batch_sacrifices) ∧
    (∀ (cfg : SimConfig) (st st' : SimState),
       stepSim false cfg st = .ok (st', true) →
       st'.state.batch_sacrifices = st.state.batch_sacrifices ∧
       ∃ snap, st'.snapshots = st.snapshots ++ [snap] ∧
         snap.batch_sacrifice_count = st.state.batch_sacrifices) := by
  constructor
  · intro cfg st st' h
    obtain ⟨st1, -, -, -, -, -, hbs1, -, hsnap, hbs⟩ := stepSim_true_spec true cfg st st' h
    refine ⟨by simpa using hbs, stepSnap cfg st1, hsnap, ?_⟩
    show (stepSnapState st1).batch_sacrifices = _
    exact hbs1
  · intro cfg st st' h
    obtain ⟨st1, -, -, -, -, -, hbs1, -, hsnap, hbs⟩ := stepSim_true_spec false cfg st st' h
    refine ⟨by simpa using hbs, stepSnap cfg st1, hsnap, ?_⟩
    show (stepSnapState st1).batch_sacrifices = _
    exact hbs1

/-- The C6 counterexample input: one running request that completes within
the step, and a batch_sacrifices counter seeded to 1. -/
def c6req : Request :=
  { req_id := 0, arrival_time := 0, prefill_length := 1, decode_length := 1,
    status := RequestStatus.running, enter_running_times := [0] }

def c6cfg : SimConfig :=
  { d_0 := 0, d_1 := 0, mode := .sacrifice, strategy := .conservative }

def c6st : SimState :=
  { state := { M_total := 10, B := 10, running := [c6req], batch_sacrifices := 1 },
    time := 0, batch_id := 0, snapshots := [], pending := [] }

/-- Counterexample to C6 as stated: a VLLMSimulator step (no reset
variant) completes and leaves batch_sacrifices at its pre-step value 1
instead of resetting it to zero after the snapshot. -/
theorem step_sacrifice_reset_counterexample :
    stepSim false c6cfg c6st =
      .ok ({ state := stepPostExtract false c6cfg c6st,
             time := stepTime c6cfg c6st, batch_id := 1,
             snapshots := [stepSnap c6cfg c6st], pending := [] }, true) ∧
    c6st.state.batch_sacrifices = 1 ∧
    (stepPostExtract false c6cfg c6st).batch_sacrifices = 1 ∧
    (stepSnap c6cfg c6st).batch_sacrifice_count = 1 := by
  refine ⟨rfl, rfl, ?_, rfl⟩
  simpa using (stepPostExtract_fields false c6cfg c6st).1
